import Mathlib

/-!
Verification of the btcpredict-kalshi market-making core.

This file gives a shallow embedding, in Lean 4, of the pure computational
core of the repository (fee calculator, position accounting, orderbook state
machine, calculator blending, price aggregator state, binary-option fair
value, and the market maker's signal generation), and proves or refutes the
specification claims about it.

Modelling conventions:
* Rust `f64` arithmetic is modelled exactly: over `ℚ` where the code only
  uses field operations and rounding (fees, positions, orderbook, calculator,
  aggregator), and over `ℝ` where the code uses transcendental functions
  (`exp`, `ln`, `sqrt` in the fair-value engine and everything downstream of
  it in the market maker).
* Rust integer types (`i32`, `i64`) are modelled as `ℤ`, `u16` keys as `ℕ`
  (with the `as u16` truncation made explicit where the code casts).
* `chrono` instants are modelled as `ℤ` Unix seconds; functions that call
  `Utc::now()` take the current instant as an explicit `now` parameter.
* `BTreeMap<u16, i64>` is modelled as an association list with no duplicate
  keys; iterating the map in reverse key order and taking the first entry
  with positive quantity is modelled as taking the entry of maximal key
  among those with positive quantity (keys are unique).
-/

-- =========================================================================
-- Shared enums (src/types/kalshi.rs, src/calculator.rs)
-- =========================================================================

/-- Order side (yes or no), from src/types/kalshi.rs. -/
inductive OrderSide where
  | yes
  | no
deriving DecidableEq, Repr

/-- Kalshi product types with different fee structures, from src/calculator.rs. -/
inductive ProductType where
  | standard
  | indexInxNasdaq100
deriving DecidableEq, Repr

-- =========================================================================
-- Fee calculator (src/calculator.rs, calculate_fee)
-- =========================================================================

/-- `x.clamp(0.0, 1.0)` on f64: clamp into the unit interval. -/
def clamp01 {α : Type} [LinearOrderedField α] (x : α) : α :=
  max 0 (min 1 x)

/-- Round a raw dollar fee UP to the nearest cent: `(raw_fee * 100.0).ceil() / 100.0`. -/
def fee_round {α : Type} [LinearOrderedField α] [FloorRing α] (raw : α) : α :=
  (Int.ceil (raw * 100) : α) / 100

/-- Taker fee rate per product type (`fee_rates` module in src/calculator.rs). -/
def takerRate {α : Type} [LinearOrderedField α] : ProductType → α
  | .standard => 0.07
  | .indexInxNasdaq100 => 0.035

/-- Kalshi trading fee, from `calculate_fee` in src/calculator.rs. -/
def calculate_fee {α : Type} [LinearOrderedField α] [FloorRing α]
    (price_p : α) (contracts_c : ℤ) (is_taker : Bool) (maker_fee_market : Bool)
    (product_type : ProductType) : α :=
  if contracts_c ≤ 0 then 0
  else if clamp01 price_p = 0 ∨ clamp01 price_p = 1 then 0
  else if is_taker then
    fee_round ((contracts_c : α) * clamp01 price_p * (1 - clamp01 price_p) *
      takerRate product_type)
  else if maker_fee_market then
    fee_round ((contracts_c : α) * clamp01 price_p * (1 - clamp01 price_p) * 0.0175)
  else 0

/-- The fee rate selected by `calculate_fee` once the edge cases are passed:
taker 0.07 (standard) / 0.035 (index), maker 0.0175 in maker-fee markets,
0 otherwise. -/
def feeRate {α : Type} [LinearOrderedField α]
    (is_taker maker_fee_market : Bool) (product_type : ProductType) : α :=
  if is_taker then takerRate product_type
  else if maker_fee_market then 0.0175
  else 0

lemma clamp01_eq_self {α : Type} [LinearOrderedField α] {p : α}
    (h0 : 0 ≤ p) (h1 : p ≤ 1) : clamp01 p = p := by
  rw [clamp01, min_eq_right h1, max_eq_right h0]

lemma clamp01_one_sub {α : Type} [LinearOrderedField α] (p : α) :
    clamp01 (1 - p) = 1 - clamp01 p := by
  unfold clamp01
  rcases le_total p 0 with h | h
  · rw [min_eq_right (show p ≤ 1 by linarith), max_eq_left h,
      min_eq_left (show (1 : α) ≤ 1 - p by linarith),
      max_eq_right (show (0 : α) ≤ 1 by norm_num)]
    ring
  · rcases le_total p 1 with h1 | h1
    · rw [min_eq_right h1, max_eq_right h,
        min_eq_right (show 1 - p ≤ 1 by linarith),
        max_eq_right (show (0 : α) ≤ 1 - p by linarith)]
    · rw [min_eq_left h1, max_eq_right (show (0 : α) ≤ 1 by norm_num),
        min_eq_right (show 1 - p ≤ 1 by linarith),
        max_eq_left (show 1 - p ≤ 0 by linarith)]
      ring

/-- C3: `calculate_fee` returns 0 when `contracts ≤ 0` or the price is 0 or 1;
otherwise it returns `⌈contracts · price · (1 − price) · rate · 100⌉ / 100`
with the rate 0.07 for a taker on the standard product, 0.035 for a taker on
the index-nasdaq100 product, 0.0175 for a maker in a maker-fee market and 0
for a maker otherwise. -/
theorem c3_calculate_fee_spec (p : ℚ) (c : ℤ) (t m : Bool) (pt : ProductType)
    (h0 : 0 ≤ p) (h1 : p ≤ 1) :
    ((c ≤ 0 ∨ p = 0 ∨ p = 1) → calculate_fee p c t m pt = 0) ∧
    (0 < c → 0 < p → p < 1 →
      calculate_fee p c t m pt =
        (Int.ceil ((c : ℚ) * p * (1 - p) * feeRate t m pt * 100) : ℚ) / 100) := by
  constructor
  · rintro (hc | hp | hp)
    · simp [calculate_fee, hc]
    · subst hp
      simp [calculate_fee, clamp01_eq_self h0 h1]
    · subst hp
      by_cases hc : c ≤ 0 <;> simp [calculate_fee, clamp01_eq_self h0 h1, hc]
  · intro hc hp0 hp1
    have hcle : ¬ c ≤ 0 := not_le.mpr hc
    rw [calculate_fee, if_neg hcle]
    rw [clamp01_eq_self h0 h1,
      if_neg (by push_neg; exact ⟨ne_of_gt hp0, ne_of_lt hp1⟩)]
    cases t with
    | true => simp [fee_round, feeRate]
    | false =>
      cases m with
      | true => simp [fee_round, feeRate]
      | false =>
        simp only [Bool.false_eq_true, if_false, feeRate]
        rw [mul_zero, zero_mul, Int.ceil_zero]
        simp

/-- Concrete check of C3's examples: fee(price = 0.58, contracts = 1, taker,
standard) = $0.02, fee with contracts = 0 is 0, fee at price = 1.00 is 0. -/
theorem c3_calculate_fee_spec_witness :
    (0 : ℚ) ≤ 58/100 ∧ (58/100 : ℚ) ≤ 1 ∧
    calculate_fee (58/100 : ℚ) 1 true false ProductType.standard = 2/100 ∧
    calculate_fee (1/2 : ℚ) 0 true false ProductType.standard = 0 ∧
    calculate_fee (1 : ℚ) 7 true false ProductType.standard = 0 := by
  refine ⟨by norm_num, by norm_num, ?_, ?_, ?_⟩
  · have h := (c3_calculate_fee_spec (58/100) 1 true false ProductType.standard
      (by norm_num) (by norm_num)).2 (by norm_num) (by norm_num) (by norm_num)
    rw [h]
    have hval : ((1 : ℤ) : ℚ) * (58/100) * (1 - 58/100) *
        feeRate true false ProductType.standard * 100 = 4263/2500 := by
      norm_num [feeRate, takerRate]
    rw [hval]
    have h2 : Int.ceil ((4263 : ℚ)/2500) = (2 : ℤ) := by
      rw [Int.ceil_eq_iff]
      constructor <;> norm_num
    rw [h2]
    norm_num
  · exact (c3_calculate_fee_spec (1/2) 0 true false ProductType.standard
      (by norm_num) (by norm_num)).1 (Or.inl (by norm_num))
  · exact (c3_calculate_fee_spec 1 7 true false ProductType.standard
      (by norm_num) (by norm_num)).1 (Or.inr (Or.inr rfl))

/-- C8: the fee is a non-negative integer multiple of one cent, and it is
symmetric under `price ↔ 1 − price`, for all inputs. -/
theorem c8_fee_nonneg_cent_multiple_symmetric (p : ℚ) (c : ℤ) (t m : Bool)
    (pt : ProductType) :
    (0 ≤ calculate_fee p c t m pt ∧
      ∃ n : ℤ, 0 ≤ n ∧ calculate_fee p c t m pt = (n : ℚ) / 100) ∧
    calculate_fee p c t m pt = calculate_fee (1 - p) c t m pt := by
  have hfee : ∀ q r : ℚ, 0 ≤ q → 0 ≤ r →
      0 ≤ fee_round (q * r) ∧ ∃ n : ℤ, 0 ≤ n ∧ fee_round (q * r) = (n : ℚ) / 100 := by
    intro q r hq hr
    have hraw : (0 : ℚ) ≤ q * r * 100 := by positivity
    have hceil : (0 : ℤ) ≤ Int.ceil (q * r * 100) := Int.ceil_nonneg hraw
    refine ⟨?_, ⟨Int.ceil (q * r * 100), hceil, rfl⟩⟩
    unfold fee_round
    have hcast : (0 : ℚ) ≤ (Int.ceil (q * r * 100) : ℚ) := by exact_mod_cast hceil
    positivity
  constructor
  · by_cases hc : c ≤ 0
    · refine ⟨by simp [calculate_fee, hc], 0, le_refl 0, by simp [calculate_fee, hc]⟩
    · have hc' : 0 < c := lt_of_not_le hc
      rw [calculate_fee, if_neg hc]
      have hp0 : 0 ≤ clamp01 p := le_max_left 0 _
      have hp1 : clamp01 p ≤ 1 := max_le (by norm_num) (min_le_left 1 p)
      by_cases hedge : clamp01 p = 0 ∨ clamp01 p = 1
      · rw [if_pos hedge]
        exact ⟨le_refl 0, 0, le_refl 0, by norm_num⟩
      · rw [if_neg hedge]
        have hvar : (0 : ℚ) ≤ (c : ℚ) * clamp01 p * (1 - clamp01 p) := by
          have hcq : (0 : ℚ) < (c : ℚ) := by exact_mod_cast hc'
          have h1p : (0 : ℚ) ≤ 1 - clamp01 p := by linarith
          positivity
        cases t with
        | true =>
          cases pt with
          | standard => simpa [takerRate] using hfee _ 0.07 hvar (by norm_num)
          | indexInxNasdaq100 =>
            simpa [takerRate] using hfee _ 0.035 hvar (by norm_num)
        | false =>
          cases m with
          | true => simpa using hfee _ 0.0175 hvar (by norm_num)
          | false =>
            simp only [Bool.false_eq_true, if_false]
            exact ⟨le_refl 0, 0, le_refl 0, by norm_num⟩
  · by_cases hc : c ≤ 0
    · simp [calculate_fee, hc]
    · rw [calculate_fee, calculate_fee, if_neg hc, if_neg hc]
      simp only [clamp01_one_sub p]
      have hedge : (1 - clamp01 p = 0 ∨ 1 - clamp01 p = 1) ↔
          (clamp01 p = 0 ∨ clamp01 p = 1) := by
        constructor
        · rintro (h | h)
          · exact Or.inr (by linarith)
          · exact Or.inl (by linarith)
        · rintro (h | h)
          · exact Or.inr (by rw [h]; ring)
          · exact Or.inl (by rw [h]; ring)
      by_cases h : clamp01 p = 0 ∨ clamp01 p = 1
      · rw [if_pos h, if_pos (hedge.mpr h)]
      · rw [if_neg h, if_neg (fun hh => h (hedge.mp hh))]
        have harith : ∀ r : ℚ, (c : ℚ) * clamp01 p * (1 - clamp01 p) * r =
            (c : ℚ) * (1 - clamp01 p) * (1 - (1 - clamp01 p)) * r := by
          intro r; ring
        simp only [harith]

-- =========================================================================
-- Position accounting (src/market_maker.rs, PositionState)
-- =========================================================================

/-- Current position state, from src/market_maker.rs.
`yes_position` is net YES contracts (positive = long YES, negative = short
YES / long NO), `avg_entry_price` the average YES entry price (probability),
`cost_basis` dollars spent, `realized_pnl` realized profit and loss. -/
structure PositionState (α : Type) where
  yes_position : ℤ
  avg_entry_price : α
  cost_basis : α
  realized_pnl : α
deriving DecidableEq, Repr

/-- `PositionState::new()` / `Default`: the flat empty position. -/
def PositionState.new {α : Type} [LinearOrderedField α] : PositionState α :=
  ⟨0, 0, 0, 0⟩

/-- `PositionState::max_loss`: worst-case payout loss at settlement.
Long YES loses `cost_basis`; short YES loses `contracts * 1.0 - cost_basis.abs()`;
flat loses 0. -/
def PositionState.max_loss {α : Type} [LinearOrderedField α]
    (p : PositionState α) : α :=
  if 0 < p.yes_position then p.cost_basis
  else if p.yes_position < 0 then
    (p.yes_position.natAbs : α) * 1 - |p.cost_basis|
  else 0

/-- The signed contract delta of a fill: Buy YES and Sell NO add YES exposure,
Sell YES and Buy NO remove it (from `update_from_fill`). -/
def signedContracts (side : OrderSide) (is_buy : Bool) (contracts : ℤ) : ℤ :=
  match side, is_buy with
  | .yes, true => contracts
  | .yes, false => -contracts
  | .no, true => -contracts
  | .no, false => contracts

/-- `PositionState::update_from_fill`: update position after a fill. -/
def PositionState.update_from_fill {α : Type} [LinearOrderedField α]
    (p : PositionState α) (side : OrderSide) (is_buy : Bool)
    (contracts : ℤ) (price : α) : PositionState α :=
  let signed := signedContracts side is_buy contracts
  let cost := (contracts : α) * price
  let p1 :=
    if (0 ≤ p.yes_position ∧ 0 < signed) ∨ (p.yes_position ≤ 0 ∧ signed < 0) then
      -- Adding to position
      let total := (p.yes_position.natAbs : ℤ) + contracts
      { p with
        avg_entry_price :=
          if 0 < total then
            (p.avg_entry_price * (p.yes_position.natAbs : α) + price * (contracts : α))
              / (total : α)
          else p.avg_entry_price,
        cost_basis := p.cost_basis + cost }
    else
      -- Reducing position - realize P&L
      let contracts_closed := min contracts (p.yes_position.natAbs : ℤ)
      let pnl := (contracts_closed : α) * (price - p.avg_entry_price)
      { p with
        realized_pnl := p.realized_pnl + (if 0 < p.yes_position then pnl else -pnl),
        cost_basis := p.cost_basis - (contracts_closed : α) * p.avg_entry_price }
  { p1 with yes_position := p1.yes_position + signed }

/-- A fill as consumed by `update_from_fill` (side, action, count and price in
dollars; `MarketMaker::on_fill` divides `price_cents` by 100). -/
structure Fill where
  side : OrderSide
  is_buy : Bool
  count : ℤ
  price : ℚ
deriving DecidableEq, Repr

/-- Apply a sequence of fills to a position, in order. -/
def applyFills (fs : List Fill) (p : PositionState ℚ) : PositionState ℚ :=
  fs.foldl (fun s f => s.update_from_fill f.side f.is_buy f.count f.price) p

/-- A fill is "reducing" when `update_from_fill` takes its P&L-realization
branch at position `p`. -/
def Reducing (p : PositionState ℚ) (f : Fill) : Prop :=
  ¬ ((0 ≤ p.yes_position ∧ 0 < signedContracts f.side f.is_buy f.count) ∨
     (p.yes_position ≤ 0 ∧ signedContracts f.side f.is_buy f.count < 0))

instance (p : PositionState ℚ) (f : Fill) : Decidable (Reducing p f) := by
  unfold Reducing; infer_instance

/-- A fill with price in (0, 1) and positive count that, when reducing, does
not exceed the current position size (so the position sign never flips). -/
def ValidFillNoFlip (p : PositionState ℚ) (f : Fill) : Prop :=
  0 < f.price ∧ f.price < 1 ∧ 0 < f.count ∧
    (Reducing p f → f.count ≤ (p.yes_position.natAbs : ℤ))

instance (p : PositionState ℚ) (f : Fill) : Decidable (ValidFillNoFlip p f) := by
  unfold ValidFillNoFlip; exact instDecidableAnd

/-- A whole fill sequence is valid-without-flips along its own trajectory. -/
def ValidSeqNoFlip : PositionState ℚ → List Fill → Prop
  | _, [] => True
  | q, f :: fs =>
    ValidFillNoFlip q f ∧
      ValidSeqNoFlip (q.update_from_fill f.side f.is_buy f.count f.price) fs

instance instDecValidSeqNoFlip :
    (fs : List Fill) → (p : PositionState ℚ) → Decidable (ValidSeqNoFlip p fs)
  | [], _ => .isTrue trivial
  | _ :: fs, _ => @instDecidableAnd _ _ _ (instDecValidSeqNoFlip fs _)

/-- C2 as stated is false: a sign-flipping sequence of fills, each with price
in (0, 1) and positive count, drives `max_loss` to −10 < 0. The fills are:
buy 100 YES at 0.50, sell 150 YES at 0.50 (flips to short 50), buy 40 YES
at 0.50 (reduces the short whose cost basis was zeroed by the flip). -/
theorem c2_counterexample :
    (∀ f ∈ [Fill.mk .yes true 100 (1/2), Fill.mk .yes false 150 (1/2),
        Fill.mk .yes true 40 (1/2)], 0 < f.price ∧ f.price < 1 ∧ 0 < f.count) ∧
    (applyFills [Fill.mk .yes true 100 (1/2), Fill.mk .yes false 150 (1/2),
        Fill.mk .yes true 40 (1/2)] PositionState.new).max_loss = -10 ∧
    ¬ (0 ≤ (applyFills [Fill.mk .yes true 100 (1/2), Fill.mk .yes false 150 (1/2),
        Fill.mk .yes true 40 (1/2)] PositionState.new).max_loss) := by
  have h1 : PositionState.update_from_fill (PositionState.new : PositionState ℚ)
      .yes true 100 (1/2) = ⟨100, 1/2, 50, 0⟩ := by
    simp [PositionState.update_from_fill, signedContracts, PositionState.new]
    norm_num
  have h2 : PositionState.update_from_fill (⟨100, 1/2, 50, 0⟩ : PositionState ℚ)
      .yes false 150 (1/2) = ⟨-50, 1/2, 0, 0⟩ := by
    simp [PositionState.update_from_fill, signedContracts]
    norm_num
  have h3 : PositionState.update_from_fill (⟨-50, 1/2, 0, 0⟩ : PositionState ℚ)
      .yes true 40 (1/2) = ⟨-10, 1/2, -20, 0⟩ := by
    simp [PositionState.update_from_fill, signedContracts]
    norm_num
  have happ : applyFills [Fill.mk .yes true 100 (1/2), Fill.mk .yes false 150 (1/2),
      Fill.mk .yes true 40 (1/2)] PositionState.new = ⟨-10, 1/2, -20, 0⟩ := by
    simp only [applyFills, List.foldl_cons, List.foldl_nil, h1, h2, h3]
  refine ⟨?_, ?_, ?_⟩
  · intro f hf
    simp only [List.mem_cons, List.not_mem_nil, or_false] at hf
    rcases hf with h | h | h <;> subst h <;> refine ⟨by norm_num, by norm_num, by norm_num⟩
  · rw [happ]
    simp [PositionState.max_loss]
    norm_num
  · rw [happ]
    simp [PositionState.max_loss]
    norm_num

/-- Invariant maintained by flip-free fill sequences: the cost basis is the
position size times the average entry price, which stays in [0, 1]. -/
def PosInv (p : PositionState ℚ) : Prop :=
  p.cost_basis = (p.yes_position.natAbs : ℚ) * p.avg_entry_price ∧
    0 ≤ p.avg_entry_price ∧ p.avg_entry_price ≤ 1

lemma posInv_new : PosInv PositionState.new := by
  refine ⟨by simp [PositionState.new], by simp [PositionState.new], by simp [PositionState.new]⟩

lemma max_loss_nonneg_of_posInv (p : PositionState ℚ) (h : PosInv p) :
    0 ≤ p.max_loss := by
  obtain ⟨hc, h0, h1⟩ := h
  unfold PositionState.max_loss
  split_ifs with hpos hneg
  · rw [hc]; positivity
  · rw [hc, abs_of_nonneg (by positivity)]
    have hmul : (p.yes_position.natAbs : ℚ) * p.avg_entry_price ≤
        (p.yes_position.natAbs : ℚ) * 1 :=
      mul_le_mul_of_nonneg_left h1 (by positivity)
    linarith
  · exact le_refl 0

lemma signedContracts_eq_or (side : OrderSide) (is_buy : Bool) (c : ℤ) :
    signedContracts side is_buy c = c ∨ signedContracts side is_buy c = -c := by
  cases side <;> cases is_buy <;> simp [signedContracts]

/-- The adding branch of `update_from_fill`, as a record equation. -/
lemma update_from_fill_eq_add (p : PositionState ℚ) (side : OrderSide)
    (is_buy : Bool) (count : ℤ) (price : ℚ)
    (h : (0 ≤ p.yes_position ∧ 0 < signedContracts side is_buy count) ∨
      (p.yes_position ≤ 0 ∧ signedContracts side is_buy count < 0)) :
    p.update_from_fill side is_buy count price =
      ⟨p.yes_position + signedContracts side is_buy count,
       if 0 < (p.yes_position.natAbs : ℤ) + count then
         (p.avg_entry_price * (p.yes_position.natAbs : ℚ) + price * (count : ℚ)) /
           ((((p.yes_position.natAbs : ℤ) + count : ℤ)) : ℚ)
       else p.avg_entry_price,
       p.cost_basis + (count : ℚ) * price,
       p.realized_pnl⟩ := by
  simp only [PositionState.update_from_fill]
  rw [if_pos h]

/-- The reducing branch of `update_from_fill`, as a record equation. -/
lemma update_from_fill_eq_reduce (p : PositionState ℚ) (side : OrderSide)
    (is_buy : Bool) (count : ℤ) (price : ℚ)
    (h : ¬ ((0 ≤ p.yes_position ∧ 0 < signedContracts side is_buy count) ∨
      (p.yes_position ≤ 0 ∧ signedContracts side is_buy count < 0))) :
    p.update_from_fill side is_buy count price =
      ⟨p.yes_position + signedContracts side is_buy count,
       p.avg_entry_price,
       p.cost_basis -
         ((min count (p.yes_position.natAbs : ℤ) : ℤ) : ℚ) * p.avg_entry_price,
       p.realized_pnl +
         (if 0 < p.yes_position
          then ((min count (p.yes_position.natAbs : ℤ) : ℤ) : ℚ) *
            (price - p.avg_entry_price)
          else -(((min count (p.yes_position.natAbs : ℤ) : ℤ) : ℚ) *
            (price - p.avg_entry_price)))⟩ := by
  simp only [PositionState.update_from_fill]
  rw [if_neg h]

lemma cast_natAbs_rat (z : ℤ) : ((z.natAbs : ℚ)) = |(z : ℚ)| := by
  rw [Int.cast_natAbs]
  exact Int.cast_abs

lemma posInv_step (p : PositionState ℚ) (f : Fill) (hf : ValidFillNoFlip p f)
    (h : PosInv p) :
    PosInv (p.update_from_fill f.side f.is_buy f.count f.price) := by
  obtain ⟨hc, h0, h1⟩ := h
  obtain ⟨hp0, hp1, hcnt, hnoflip⟩ := hf
  have hsor := signedContracts_eq_or f.side f.is_buy f.count
  set s := signedContracts f.side f.is_buy f.count with hs
  have hcq : (0 : ℚ) < (f.count : ℚ) := by exact_mod_cast hcnt
  by_cases hadd : (0 ≤ p.yes_position ∧ 0 < s) ∨ (p.yes_position ≤ 0 ∧ s < 0)
  · -- Adding branch
    rw [update_from_fill_eq_add p f.side f.is_buy f.count f.price (by rw [← hs]; exact hadd)]
    have htot : (0 : ℤ) < (p.yes_position.natAbs : ℤ) + f.count := by omega
    have hnewabs : (((p.yes_position + s).natAbs : ℚ)) =
        (p.yes_position.natAbs : ℚ) + (f.count : ℚ) := by
      rcases hadd with ⟨hge, hgt⟩ | ⟨hle, hlt⟩
      · have hsc : s = f.count := by
          rcases hsor with hh | hh
          · exact hh
          · exfalso; omega
        rw [cast_natAbs_rat, cast_natAbs_rat, hsc,
          abs_of_nonneg (show (0 : ℚ) ≤ (p.yes_position : ℚ) by exact_mod_cast hge),
          abs_of_nonneg (show (0 : ℚ) ≤ ((p.yes_position + f.count : ℤ) : ℚ) by
            exact_mod_cast (by omega : (0 : ℤ) ≤ p.yes_position + f.count))]
        push_cast
        ring
      · have hsc : s = -f.count := by
          rcases hsor with hh | hh
          · exfalso; omega
          · exact hh
        rw [cast_natAbs_rat, cast_natAbs_rat, hsc,
          abs_of_nonpos (show (p.yes_position : ℚ) ≤ 0 by exact_mod_cast hle),
          abs_of_nonpos (show ((p.yes_position + -f.count : ℤ) : ℚ) ≤ 0 by
            exact_mod_cast (by omega : p.yes_position + -f.count ≤ (0 : ℤ)))]
        push_cast
        ring
    have hA : (0 : ℚ) ≤ (p.yes_position.natAbs : ℚ) := by positivity
    have hdenq : ((((p.yes_position.natAbs : ℤ) + f.count : ℤ)) : ℚ) =
        (p.yes_position.natAbs : ℚ) + (f.count : ℚ) := by
      push_cast
      rw [cast_natAbs_rat]
    refine ⟨?_, ?_, ?_⟩
    · show p.cost_basis + (f.count : ℚ) * f.price =
        ((p.yes_position + s).natAbs : ℚ) *
          (if 0 < (p.yes_position.natAbs : ℤ) + f.count then
            (p.avg_entry_price * (p.yes_position.natAbs : ℚ) + f.price * (f.count : ℚ)) /
              ((((p.yes_position.natAbs : ℤ) + f.count : ℤ)) : ℚ)
          else p.avg_entry_price)
      rw [if_pos htot, hnewabs, hc, hdenq]
      have hne : (p.yes_position.natAbs : ℚ) + (f.count : ℚ) ≠ 0 := by linarith
      field_simp
      ring
    · show (0 : ℚ) ≤ (if 0 < (p.yes_position.natAbs : ℤ) + f.count then
        (p.avg_entry_price * (p.yes_position.natAbs : ℚ) + f.price * (f.count : ℚ)) /
          ((((p.yes_position.natAbs : ℤ) + f.count : ℤ)) : ℚ)
        else p.avg_entry_price)
      rw [if_pos htot, hdenq]
      have hnum : (0 : ℚ) ≤ p.avg_entry_price * (p.yes_position.natAbs : ℚ) +
          f.price * (f.count : ℚ) := by positivity
      positivity
    · show (if 0 < (p.yes_position.natAbs : ℤ) + f.count then
        (p.avg_entry_price * (p.yes_position.natAbs : ℚ) + f.price * (f.count : ℚ)) /
          ((((p.yes_position.natAbs : ℤ) + f.count : ℤ)) : ℚ)
        else p.avg_entry_price) ≤ 1
      rw [if_pos htot, hdenq, div_le_one (by linarith)]
      have e1 : p.avg_entry_price * (p.yes_position.natAbs : ℚ) ≤
          (p.yes_position.natAbs : ℚ) := by
        calc p.avg_entry_price * (p.yes_position.natAbs : ℚ)
            ≤ 1 * (p.yes_position.natAbs : ℚ) := mul_le_mul_of_nonneg_right h1 hA
          _ = (p.yes_position.natAbs : ℚ) := one_mul _
      have e2 : f.price * (f.count : ℚ) ≤ (f.count : ℚ) := by
        calc f.price * (f.count : ℚ) ≤ 1 * (f.count : ℚ) :=
            mul_le_mul_of_nonneg_right (le_of_lt hp1) (le_of_lt hcq)
          _ = (f.count : ℚ) := one_mul _
      linarith
  · -- Reducing branch
    rw [update_from_fill_eq_reduce p f.side f.is_buy f.count f.price (by rw [← hs]; exact hadd)]
    have hred : Reducing p f := hadd
    have hcle := hnoflip hred
    have hclosed : min f.count (p.yes_position.natAbs : ℤ) = f.count :=
      min_eq_left hcle
    have hnewabs : (((p.yes_position + s).natAbs : ℚ)) =
        (p.yes_position.natAbs : ℚ) - (f.count : ℚ) := by
      rcases lt_trichotomy p.yes_position 0 with hneg | hzero | hpos
      · have hsc : s = f.count := by
          rcases hsor with hh | hh
          · exact hh
          · exfalso
            exact hadd (Or.inr ⟨le_of_lt hneg, by omega⟩)
        have hposcnt : p.yes_position + f.count ≤ 0 := by
          have := hcle
          omega
        rw [cast_natAbs_rat, cast_natAbs_rat, hsc,
          abs_of_nonpos (show (p.yes_position : ℚ) ≤ 0 by exact_mod_cast le_of_lt hneg),
          abs_of_nonpos (show ((p.yes_position + f.count : ℤ) : ℚ) ≤ 0 by
            exact_mod_cast hposcnt)]
        push_cast
        ring
      · exfalso
        apply hadd
        rcases hsor with hh | hh
        · exact Or.inl ⟨by omega, by omega⟩
        · exact Or.inr ⟨by omega, by omega⟩
      · have hsc : s = -f.count := by
          rcases hsor with hh | hh
          · exfalso
            exact hadd (Or.inl ⟨le_of_lt hpos, by omega⟩)
          · exact hh
        have hposcnt : (0 : ℤ) ≤ p.yes_position + -f.count := by
          have := hcle
          omega
        rw [cast_natAbs_rat, cast_natAbs_rat, hsc,
          abs_of_nonneg (show (0 : ℚ) ≤ (p.yes_position : ℚ) by
            exact_mod_cast le_of_lt hpos),
          abs_of_nonneg (show (0 : ℚ) ≤ ((p.yes_position + -f.count : ℤ) : ℚ) by
            exact_mod_cast hposcnt)]
        push_cast
        ring
    refine ⟨?_, h0, h1⟩
    show p.cost_basis - ((min f.count (p.yes_position.natAbs : ℤ) : ℤ) : ℚ) *
        p.avg_entry_price = ((p.yes_position + s).natAbs : ℚ) * p.avg_entry_price
    rw [hclosed, hnewabs, hc]
    ring

lemma posInv_applyFills (fs : List Fill) :
    ∀ p : PositionState ℚ, PosInv p → ValidSeqNoFlip p fs →
      PosInv (applyFills fs p) := by
  induction fs with
  | nil => intro p hp _; simpa [applyFills] using hp
  | cons f fs ih =>
    intro p hp hv
    obtain ⟨hf, hrest⟩ := hv
    have hstep := posInv_step p f hf hp
    simpa [applyFills] using
      ih (p.update_from_fill f.side f.is_buy f.count f.price) hstep hrest

/-- C2, amended: starting from the empty position, any sequence of fills with
price in (0, 1) and positive count in which no reducing fill exceeds the
current position size (so the position never flips sign) keeps
`max_loss ≥ 0`. (With sign flips the invariant fails; see the
counterexample.) -/
theorem c2_max_loss_nonneg_without_flips (fs : List Fill)
    (h : ValidSeqNoFlip PositionState.new fs) :
    0 ≤ (applyFills fs PositionState.new).max_loss :=
  max_loss_nonneg_of_posInv _ (posInv_applyFills fs PositionState.new posInv_new h)

/-- Witness for the amended C2 at a concrete flip-free sequence:
buy 2 YES at 0.50 then sell 1 YES at 0.75. -/
theorem c2_max_loss_nonneg_without_flips_witness :
    ValidSeqNoFlip PositionState.new
      [Fill.mk .yes true 2 (1/2), Fill.mk .yes false 1 (3/4)] ∧
    0 ≤ (applyFills [Fill.mk .yes true 2 (1/2), Fill.mk .yes false 1 (3/4)]
      PositionState.new).max_loss := by
  have h1 : PositionState.update_from_fill (PositionState.new : PositionState ℚ)
      .yes true 2 (1/2) = ⟨2, 1/2, 1, 0⟩ := by
    norm_num [PositionState.update_from_fill, signedContracts, PositionState.new]
  have hv : ValidSeqNoFlip PositionState.new
      [Fill.mk .yes true 2 (1/2), Fill.mk .yes false 1 (3/4)] := by
    refine ⟨⟨by norm_num, by norm_num, by norm_num, fun hred => ?_⟩, ?_⟩
    · exact absurd
        (Or.inl ⟨by norm_num [PositionState.new], by norm_num [signedContracts]⟩) hred
    · rw [h1]
      exact ⟨⟨by norm_num, by norm_num, by norm_num, fun _ => by norm_num⟩, trivial⟩
  exact ⟨hv, c2_max_loss_nonneg_without_flips _ hv⟩

/-- C10: on a reducing fill whose count exceeds the current position size
(a sign flip), `update_from_fill` realizes P&L only on
`min(count, |yes_position|) = |yes_position|` contracts, reduces `cost_basis`
only by `contracts_closed · avg_entry_price`, leaves `avg_entry_price`
unchanged for the newly opened opposite position, and moves `yes_position`
by the signed contract count; the surplus contracts' cost is never added to
`cost_basis`. -/
theorem c10_flip_keeps_avg_and_caps_realization (p : PositionState ℚ)
    (side : OrderSide) (is_buy : Bool) (count : ℤ) (price : ℚ)
    (hred : Reducing p (Fill.mk side is_buy count price))
    (hflip : (p.yes_position.natAbs : ℤ) < count) :
    (p.update_from_fill side is_buy count price).avg_entry_price =
        p.avg_entry_price ∧
    (p.update_from_fill side is_buy count price).cost_basis =
        p.cost_basis - (p.yes_position.natAbs : ℚ) * p.avg_entry_price ∧
    (p.update_from_fill side is_buy count price).realized_pnl =
        p.realized_pnl +
          (if 0 < p.yes_position
            then (p.yes_position.natAbs : ℚ) * (price - p.avg_entry_price)
            else -((p.yes_position.natAbs : ℚ) * (price - p.avg_entry_price))) ∧
    (p.update_from_fill side is_buy count price).yes_position =
        p.yes_position + signedContracts side is_buy count := by
  have hcond : ¬ ((0 ≤ p.yes_position ∧ 0 < signedContracts side is_buy count) ∨
      (p.yes_position ≤ 0 ∧ signedContracts side is_buy count < 0)) := hred
  have hclosed : min count (p.yes_position.natAbs : ℤ) =
      (p.yes_position.natAbs : ℤ) := min_eq_right (le_of_lt hflip)
  rw [update_from_fill_eq_reduce p side is_buy count price hcond]
  refine ⟨rfl, ?_, ?_, rfl⟩
  · simp only [hclosed]
    push_cast [cast_natAbs_rat]
    ring
  · simp only [hclosed]
    split_ifs <;> push_cast [cast_natAbs_rat] <;> ring

/-- Witness for C10: long 100 YES at avg 0.50 with cost basis 50, then a
sell of 150 YES at 0.40 flips the position to short 50; the average entry
stays 0.50, the cost basis drops to 0 and the realized P&L is −10. -/
theorem c10_flip_keeps_avg_and_caps_realization_witness :
    Reducing (⟨100, 1/2, 50, 0⟩ : PositionState ℚ) (Fill.mk .yes false 150 (2/5)) ∧
    (((100 : ℤ).natAbs : ℤ) < 150) ∧
    (PositionState.update_from_fill (⟨100, 1/2, 50, 0⟩ : PositionState ℚ)
      .yes false 150 (2/5)).avg_entry_price = 1/2 ∧
    (PositionState.update_from_fill (⟨100, 1/2, 50, 0⟩ : PositionState ℚ)
      .yes false 150 (2/5)).cost_basis = 0 ∧
    (PositionState.update_from_fill (⟨100, 1/2, 50, 0⟩ : PositionState ℚ)
      .yes false 150 (2/5)).realized_pnl = -10 ∧
    (PositionState.update_from_fill (⟨100, 1/2, 50, 0⟩ : PositionState ℚ)
      .yes false 150 (2/5)).yes_position = -50 := by
  have hred : Reducing (⟨100, 1/2, 50, 0⟩ : PositionState ℚ)
      (Fill.mk .yes false 150 (2/5)) := by
    intro hor
    rcases hor with ⟨_, hlt⟩ | ⟨hle, _⟩
    · simp [signedContracts] at hlt
    · simp at hle
  have hflip : (((100 : ℤ).natAbs : ℤ)) < 150 := by norm_num
  have h := c10_flip_keeps_avg_and_caps_realization
    (⟨100, 1/2, 50, 0⟩ : PositionState ℚ) .yes false 150 (2/5) hred hflip
  obtain ⟨ha, hb, hcq, hd⟩ := h
  refine ⟨hred, hflip, ha, ?_, ?_, ?_⟩
  · rw [hb]; norm_num
  · rw [hcq]; norm_num
  · rw [hd]; simp [signedContracts]

-- =========================================================================
-- Orderbook state machine (src/types/kalshi.rs, OrderbookState)
-- =========================================================================

/-- One side of the book: `BTreeMap<u16, i64>` mapping price (cents) to
quantity, modelled as an association list with unique keys. -/
abbrev Book := List (ℕ × ℤ)

/-- Remove a key from the book (`BTreeMap::remove`). -/
def eraseKey (p : ℕ) (b : Book) : Book :=
  b.filter (fun e => e.1 ≠ p)

/-- Insert or replace a key (`BTreeMap::insert` / a mutated `entry`). -/
def setKey (p : ℕ) (q : ℤ) (b : Book) : Book :=
  (p, q) :: eraseKey p b

/-- The quantity stored at a price, 0 when absent (matching
`entry(price).or_insert(0)`). -/
def qtyAt : Book → ℕ → ℤ
  | [], _ => 0
  | e :: rest, p => if e.1 = p then e.2 else qtyAt rest p

/-- Combine one entry with the best of the rest: keep whichever has positive
quantity and, when both qualify, the greater key. -/
def bestCombine (x : ℕ × ℤ) : Option (ℕ × ℤ) → Option (ℕ × ℤ)
  | none => if 0 < x.2 then some x else none
  | some a => if 0 < x.2 then (if a.1 < x.1 then some x else some a) else some a

/-- The best bid of a side: the entry with the greatest key among entries of
positive quantity. This is `iter().rev().find(|(_, qty)| qty > 0)` on the
key-sorted `BTreeMap` (keys are unique, so the scan order is irrelevant). -/
def bestBid : Book → Option (ℕ × ℤ)
  | [] => none
  | e :: rest => bestCombine e (bestBid rest)

/-- Orderbook state for a single market, from src/types/kalshi.rs. -/
structure OrderbookState where
  yes_bids : Book
  no_bids : Book
  yes_bid : ℕ
  no_bid : ℕ
  yes_qty : ℤ
  no_qty : ℤ
deriving DecidableEq, Repr

/-- `OrderbookState::new()`: empty books, zero cache. -/
def OrderbookState.new : OrderbookState :=
  ⟨[], [], 0, 0, 0, 0⟩

/-- `OrderbookState::update_cache`: refresh the cached best bids from the books. -/
def OrderbookState.update_cache (s : OrderbookState) : OrderbookState :=
  { s with
    yes_bid := (bestBid s.yes_bids).elim 0 Prod.fst,
    yes_qty := (bestBid s.yes_bids).elim 0 Prod.snd,
    no_bid := (bestBid s.no_bids).elim 0 Prod.fst,
    no_qty := (bestBid s.no_bids).elim 0 Prod.snd }

/-- WebSocket orderbook message body (the fields used by the state machine).
Snapshot levels are `[[price_cents, quantity], ...]` as `i64`s. -/
structure WsMessageBody where
  yes : Option (List (List ℤ))
  no : Option (List (List ℤ))
  price : Option ℤ
  delta : Option ℤ
  side : Option String
deriving DecidableEq, Repr

/-- Rebuild one side from snapshot levels: clear, then insert every level of
length ≥ 2 whose price (`level[0] as u16`) is > 1 and quantity (`level[1]`)
is > 0. The `as u16` cast is truncation modulo 2^16. -/
def buildSide (levels : List (List ℤ)) : Book :=
  levels.foldl
    (fun b level =>
      if 2 ≤ level.length then
        if 1 < ((level.getD 0 0).emod 65536).toNat ∧ 0 < level.getD 1 0 then
          setKey ((level.getD 0 0).emod 65536).toNat (level.getD 1 0) b
        else b
      else b)
    []

/-- `OrderbookState::update_from_snapshot`. -/
def OrderbookState.update_from_snapshot (s : OrderbookState)
    (body : WsMessageBody) : OrderbookState :=
  OrderbookState.update_cache
    (match body.yes, body.no with
      | some ylv, some nlv => { s with yes_bids := buildSide ylv, no_bids := buildSide nlv }
      | some ylv, none => { s with yes_bids := buildSide ylv }
      | none, some nlv => { s with no_bids := buildSide nlv }
      | none, none => s)

/-- The delta mutation on one side: `book[price] += delta`, erasing the entry
when the result is ≤ 0. -/
def applyDeltaBook (b : Book) (price : ℕ) (delta : ℤ) : Book :=
  if qtyAt b price + delta ≤ 0 then eraseKey price b
  else setKey price (qtyAt b price + delta) b

/-- `OrderbookState::update_from_delta`: missing side or price is a no-op,
`delta` defaults to 0, prices ≤ 1 (after the u16 cast) are dropped, unknown
sides are ignored; otherwise mutate the side and refresh the cache. -/
def OrderbookState.update_from_delta (s : OrderbookState)
    (body : WsMessageBody) : OrderbookState :=
  match body.side, body.price with
  | some side, some priceI =>
    if ((priceI.emod 65536).toNat) ≤ 1 then s
    else if side = "yes" then
      OrderbookState.update_cache
        { s with yes_bids :=
            applyDeltaBook s.yes_bids ((priceI.emod 65536).toNat) (body.delta.getD 0) }
    else if side = "no" then
      OrderbookState.update_cache
        { s with no_bids :=
            applyDeltaBook s.no_bids ((priceI.emod 65536).toNat) (body.delta.getD 0) }
    else s
  | _, _ => s

/-- A message applied to the orderbook: a snapshot or a delta. -/
inductive ObOp where
  | snapshot (body : WsMessageBody)
  | delta (body : WsMessageBody)
deriving DecidableEq, Repr

/-- Apply one message. -/
def ObOp.apply (s : OrderbookState) : ObOp → OrderbookState
  | .snapshot body => s.update_from_snapshot body
  | .delta body => s.update_from_delta body

/-- Apply a sequence of messages to the empty orderbook. -/
def applyObOps (ops : List ObOp) : OrderbookState :=
  ops.foldl ObOp.apply OrderbookState.new

/-- A cached value is correct for a side: it is the maximum key with positive
quantity, or 0 when the side has no positive quantity. -/
def BestSpec (b : Book) (cached : ℕ) : Prop :=
  (0 < qtyAt b cached ∧ ∀ p, 0 < qtyAt b p → p ≤ cached) ∨
  (cached = 0 ∧ ∀ p, qtyAt b p ≤ 0)

/-- The book has no duplicate keys (true of any `BTreeMap`). -/
def NodupKeys (b : Book) : Prop :=
  (b.map Prod.fst).Nodup

lemma mem_keys_eraseKey {p k : ℕ} {b : Book} :
    k ∈ (eraseKey p b).map Prod.fst → k ∈ b.map Prod.fst ∧ k ≠ p := by
  intro h
  rcases List.mem_map.mp h with ⟨e, he, hek⟩
  rcases List.mem_filter.mp he with ⟨heb, hne⟩
  refine ⟨List.mem_map.mpr ⟨e, heb, hek⟩, ?_⟩
  subst hek
  simpa using hne

lemma nodupKeys_eraseKey (p : ℕ) {b : Book} (h : NodupKeys b) :
    NodupKeys (eraseKey p b) := by
  unfold NodupKeys eraseKey at *
  induction b with
  | nil => simp
  | cons e rest ih =>
    simp only [List.map_cons, List.nodup_cons] at h
    obtain ⟨hnm, hnd⟩ := h
    by_cases he : e.1 ≠ p
    · rw [List.filter_cons_of_pos (by simpa using he)]
      simp only [List.map_cons, List.nodup_cons]
      refine ⟨?_, ih hnd⟩
      intro hmem
      exact hnm (mem_keys_eraseKey hmem).1
    · rw [List.filter_cons_of_neg (by simpa using he)]
      exact ih hnd

lemma nodupKeys_setKey (p : ℕ) (q : ℤ) {b : Book} (h : NodupKeys b) :
    NodupKeys (setKey p q b) := by
  unfold NodupKeys setKey
  simp only [List.map_cons, List.nodup_cons]
  refine ⟨?_, nodupKeys_eraseKey p h⟩
  intro hmem
  exact (mem_keys_eraseKey hmem).2 rfl

lemma nodupKeys_buildSide (levels : List (List ℤ)) :
    NodupKeys (buildSide levels) := by
  unfold buildSide
  have hstep : ∀ (ls : List (List ℤ)) (b : Book), NodupKeys b →
      NodupKeys (ls.foldl
        (fun b level =>
          if 2 ≤ level.length then
            if 1 < ((level.getD 0 0).emod 65536).toNat ∧ 0 < level.getD 1 0 then
              setKey ((level.getD 0 0).emod 65536).toNat (level.getD 1 0) b
            else b
          else b)
        b) := by
    intro ls
    induction ls with
    | nil => intro b hb; simpa using hb
    | cons l rest ih =>
      intro b hb
      simp only [List.foldl_cons]
      apply ih
      split_ifs with h1 h2
      · exact nodupKeys_setKey _ _ hb
      · exact hb
      · exact hb
  exact hstep _ [] (by simp [NodupKeys])

lemma nodupKeys_applyDeltaBook (b : Book) (p : ℕ) (d : ℤ) (h : NodupKeys b) :
    NodupKeys (applyDeltaBook b p d) := by
  unfold applyDeltaBook
  split_ifs
  · exact nodupKeys_eraseKey p h
  · exact nodupKeys_setKey p _ h

lemma bestBid_eq_none {b : Book} (h : bestBid b = none) :
    ∀ e ∈ b, e.2 ≤ 0 := by
  induction b with
  | nil => intro e he; simp at he
  | cons x rest ih =>
    intro e he
    rw [bestBid] at h
    rcases hrest : bestBid rest with _ | a
    · rw [hrest] at h
      simp only [bestCombine] at h
      by_cases hx : 0 < x.2
      · rw [if_pos hx] at h; exact absurd h (by simp)
      · rcases List.mem_cons.mp he with he1 | he2
        · subst he1; exact le_of_not_lt hx
        · exact ih hrest e he2
    · rw [hrest] at h
      simp only [bestCombine] at h
      by_cases hx : 0 < x.2
      · rw [if_pos hx] at h
        split at h <;> exact absurd h (by simp)
      · rw [if_neg hx] at h
        exact absurd h (by simp)

lemma bestBid_eq_some {b : Book} {p : ℕ} {q : ℤ}
    (h : bestBid b = some (p, q)) :
    (p, q) ∈ b ∧ 0 < q ∧ ∀ e ∈ b, 0 < e.2 → e.1 ≤ p := by
  induction b generalizing p q with
  | nil => simp [bestBid] at h
  | cons x rest ih =>
    rw [bestBid] at h
    rcases hrest : bestBid rest with _ | a
    · rw [hrest] at h
      simp only [bestCombine] at h
      by_cases hx : 0 < x.2
      · rw [if_pos hx] at h
        have hxe : x = (p, q) := by simpa using h
        subst hxe
        refine ⟨List.mem_cons_self _ _, hx, ?_⟩
        intro e he hpos
        rcases List.mem_cons.mp he with he1 | he2
        · subst he1; exact le_refl _
        · exact absurd hpos (not_lt.mpr (bestBid_eq_none hrest e he2))
      · rw [if_neg hx] at h
        exact absurd h (by simp)
    · rw [hrest] at h
      simp only [bestCombine] at h
      obtain ⟨hmem, hqa, hdom⟩ := ih hrest
      by_cases hx : 0 < x.2
      · rw [if_pos hx] at h
        by_cases hlt : a.1 < x.1
        · rw [if_pos hlt] at h
          have hxe : x = (p, q) := by simpa using h
          subst hxe
          refine ⟨List.mem_cons_self _ _, hx, ?_⟩
          intro e he hpos
          rcases List.mem_cons.mp he with he1 | he2
          · subst he1; exact le_refl _
          · exact le_trans (hdom e he2 hpos) (le_of_lt hlt)
        · rw [if_neg hlt] at h
          have hae : a = (p, q) := by simpa using h
          subst hae
          refine ⟨List.mem_cons_of_mem _ hmem, hqa, ?_⟩
          intro e he hpos
          rcases List.mem_cons.mp he with he1 | he2
          · subst he1; exact le_of_not_lt hlt
          · exact hdom e he2 hpos
      · rw [if_neg hx] at h
        have hae : a = (p, q) := by simpa using h
        subst hae
        refine ⟨List.mem_cons_of_mem _ hmem, hqa, ?_⟩
        intro e he hpos
        rcases List.mem_cons.mp he with he1 | he2
        · subst he1; exact absurd hpos hx
        · exact hdom e he2 hpos

lemma qtyAt_of_mem_nodup {b : Book} {p : ℕ} {q : ℤ}
    (hn : NodupKeys b) (hm : (p, q) ∈ b) : qtyAt b p = q := by
  induction b with
  | nil => simp at hm
  | cons e rest ih =>
    unfold NodupKeys at hn
    simp only [List.map_cons, List.nodup_cons] at hn
    obtain ⟨hnm, hnd⟩ := hn
    rcases List.mem_cons.mp hm with he1 | he2
    · rw [← he1, qtyAt, if_pos rfl]
    · have hne : e.1 ≠ p := by
        intro hep
        exact hnm (List.mem_map.mpr ⟨(p, q), he2, by simp [hep]⟩)
      rw [qtyAt, if_neg hne]
      exact ih hnd he2

lemma mem_of_qtyAt_pos {b : Book} {p : ℕ} (h : 0 < qtyAt b p) :
    (p, qtyAt b p) ∈ b := by
  induction b with
  | nil => simp [qtyAt] at h
  | cons e rest ih =>
    rw [qtyAt] at h ⊢
    by_cases he : e.1 = p
    · rw [if_pos he] at h ⊢
      have hpe : (p, e.2) = e := by rw [← he]
      rw [hpe]
      exact List.mem_cons_self _ _
    · rw [if_neg he] at h ⊢
      exact List.mem_cons_of_mem _ (ih h)

lemma bestSpec_of_nodup {b : Book} (hn : NodupKeys b) :
    BestSpec b ((bestBid b).elim 0 Prod.fst) := by
  rcases hb : bestBid b with _ | pq
  · right
    refine ⟨rfl, ?_⟩
    intro p
    by_contra hpos
    push_neg at hpos
    exact absurd (bestBid_eq_none hb _ (mem_of_qtyAt_pos hpos)) (not_le.mpr hpos)
  · obtain ⟨p, q⟩ := pq
    obtain ⟨hmem, hq, hdom⟩ := bestBid_eq_some hb
    left
    simp only [Option.elim]
    constructor
    · rw [qtyAt_of_mem_nodup hn hmem]; exact hq
    · intro k hk
      exact hdom (k, qtyAt b k) (mem_of_qtyAt_pos hk) hk

/-- The orderbook invariant carried through the state machine. -/
def GoodState (s : OrderbookState) : Prop :=
  NodupKeys s.yes_bids ∧ NodupKeys s.no_bids ∧
    BestSpec s.yes_bids s.yes_bid ∧ BestSpec s.no_bids s.no_bid

lemma goodState_new : GoodState OrderbookState.new := by
  refine ⟨by simp [NodupKeys, OrderbookState.new], by simp [NodupKeys, OrderbookState.new], ?_, ?_⟩
  · right; exact ⟨rfl, fun p => by simp [OrderbookState.new, qtyAt]⟩
  · right; exact ⟨rfl, fun p => by simp [OrderbookState.new, qtyAt]⟩

lemma goodState_update_cache {s : OrderbookState}
    (hy : NodupKeys s.yes_bids) (hn : NodupKeys s.no_bids) :
    GoodState s.update_cache := by
  refine ⟨hy, hn, ?_, ?_⟩
  · exact bestSpec_of_nodup hy
  · exact bestSpec_of_nodup hn

lemma goodState_snapshot {s : OrderbookState} (h : GoodState s)
    (body : WsMessageBody) : GoodState (s.update_from_snapshot body) := by
  obtain ⟨hy, hn, _, _⟩ := h
  unfold OrderbookState.update_from_snapshot
  rcases body.yes with _ | ylv <;> rcases body.no with _ | nlv <;>
    exact goodState_update_cache (by first | exact hy | exact nodupKeys_buildSide _)
      (by first | exact hn | exact nodupKeys_buildSide _)

lemma goodState_delta {s : OrderbookState} (h : GoodState s)
    (body : WsMessageBody) : GoodState (s.update_from_delta body) := by
  obtain ⟨hy, hn, hby, hbn⟩ := h
  unfold OrderbookState.update_from_delta
  rcases body.side with _ | side
  · exact ⟨hy, hn, hby, hbn⟩
  · rcases body.price with _ | priceI
    · exact ⟨hy, hn, hby, hbn⟩
    · dsimp only
      split_ifs with h1 h2 h3
      · exact ⟨hy, hn, hby, hbn⟩
      · exact goodState_update_cache (nodupKeys_applyDeltaBook _ _ _ hy) hn
      · exact goodState_update_cache hy (nodupKeys_applyDeltaBook _ _ _ hn)
      · exact ⟨hy, hn, hby, hbn⟩

lemma goodState_applyObOps (ops : List ObOp) :
    ∀ s : OrderbookState, GoodState s → GoodState (ops.foldl ObOp.apply s) := by
  induction ops with
  | nil => intro s hs; simpa using hs
  | cons op rest ih =>
    intro s hs
    simp only [List.foldl_cons]
    apply ih
    cases op with
    | snapshot body => exact goodState_snapshot hs body
    | delta body => exact goodState_delta hs body

/-- C4: after any sequence of snapshot and delta messages applied to the empty
orderbook, the cached `yes_bid` and `no_bid` each equal the true maximum key
with positive quantity of the respective side, or 0 when that side is empty. -/
theorem c4_orderbook_cache_invariant (ops : List ObOp) :
    BestSpec (applyObOps ops).yes_bids (applyObOps ops).yes_bid ∧
    BestSpec (applyObOps ops).no_bids (applyObOps ops).no_bid := by
  have h := goodState_applyObOps ops OrderbookState.new goodState_new
  exact ⟨h.2.2.1, h.2.2.2⟩

-- =========================================================================
-- Calculator blending (src/calculator.rs, CalculatorState) — claim C1
-- =========================================================================

/-- `ProbabilityUpdate` (src/types/kalshi.rs): `ProbabilityUpdate::new` sets
`yes_prob = yes_bid / 100` and `no_prob = no_bid / 100` from the orderbook
cache. -/
structure ProbabilityUpdate where
  yes_prob : ℚ
  no_prob : ℚ
  yes_bid : ℕ
  no_bid : ℕ
  yes_qty : ℤ
  no_qty : ℤ
deriving DecidableEq, Repr

/-- `ProbabilityUpdate::new(ticker, state)`. -/
def ProbabilityUpdate.ofBook (b : OrderbookState) : ProbabilityUpdate :=
  ⟨(b.yes_bid : ℚ) / 100, (b.no_bid : ℚ) / 100, b.yes_bid, b.no_bid, b.yes_qty, b.no_qty⟩

/-- `CalculatorState` (src/calculator.rs): the fields involved in fair-value
blending. The ticker string, timestamps and publish markers are I/O-only and
omitted; the fair-value calculator handle is modelled as an optional pure
function of the mid price (its `calculate` method). -/
structure CalculatorState where
  kalshi_prob : Option ℚ
  kalshi_no_prob : Option ℚ
  yes_bid : ℕ
  no_bid : ℕ
  yes_qty : ℤ
  no_qty : ℤ
  btc_mid_price : Option ℚ
  btc_bid_price : Option ℚ
  btc_ask_price : Option ℚ
  fair_prob : Option ℚ
  blended_fair_prob : Option ℚ
  confidence : ℚ
  fair_value_calc : Option (ℚ → ℚ)

/-- `CalculatorState::update_blended_fair_prob`: when both the model fair
value and the Kalshi YES probability are present,
`blended = confidence * model + (1 - confidence) * market`, where the market
term is `kalshi_prob` (the YES best bid probability). -/
def CalculatorState.update_blended_fair_prob (s : CalculatorState) : CalculatorState :=
  match s.fair_prob, s.kalshi_prob with
  | some model_fair, some market_yes =>
    { s with
      blended_fair_prob :=
        some (s.confidence * model_fair + (1 - s.confidence) * market_yes) }
  | _, _ => s

/-- `CalculatorState::update_kalshi`: overwrite the venue fields, then
recompute the blended fair value. -/
def CalculatorState.update_kalshi (s : CalculatorState)
    (u : ProbabilityUpdate) : CalculatorState :=
  CalculatorState.update_blended_fair_prob
    { s with
      kalshi_prob := some u.yes_prob,
      kalshi_no_prob := some u.no_prob,
      yes_bid := u.yes_bid,
      no_bid := u.no_bid,
      yes_qty := u.yes_qty,
      no_qty := u.no_qty }

/-- `CalculatorState::set_confidence`: clamp into [0, 1], then re-blend. -/
def CalculatorState.set_confidence (s : CalculatorState) (c : ℚ) : CalculatorState :=
  CalculatorState.update_blended_fair_prob { s with confidence := clamp01 c }

/-- `CalculatorState::update_btc_price`: overwrite the spot fields; when a
fair-value calculator is present, recompute the model fair value from the mid
price and re-blend. -/
def CalculatorState.update_btc_price (s : CalculatorState)
    (mid bid ask : ℚ) : CalculatorState :=
  let s1 := { s with
    btc_mid_price := some mid,
    btc_bid_price := some bid,
    btc_ask_price := some ask }
  match s.fair_value_calc with
  | some fv =>
    CalculatorState.update_blended_fair_prob { s1 with fair_prob := some (fv mid) }
  | none => s1

/-- `MarketMaker::calculate_market_mid` (src/market_maker.rs): the midpoint of
the YES bid and the implied YES ask `1 − no_bid`. -/
def calculate_market_mid {α : Type} [LinearOrderedField α] (yes_bid no_bid : ℕ) : α :=
  ((yes_bid : α) / 100 + (1 - (no_bid : α) / 100)) / 2

/-- The blending formula of `MarketMaker::blend_fair_value`
(src/market_maker.rs): confidence is clamped into [0, 1] and
`blended = confidence * model + (1 − confidence) * market_mid`. -/
def blend_fair_value {α : Type} [LinearOrderedField α]
    (confidence model_fair market_mid : α) : α :=
  clamp01 confidence * model_fair + (1 - clamp01 confidence) * market_mid

/-- C1 as stated is false for the calculator: with `yes_bid = 55`,
`no_bid = 42`, `model_fair = 0.60` and `confidence = 0.5`, the calculator's
blended fair probability is 0.575 (it blends against `kalshi_prob`, the YES
bid probability 0.55), not the claimed 0.5825 obtained from the venue market
mid. -/
theorem c1_counterexample :
    ((CalculatorState.mk none none 0 0 0 0 none none none (some (3/5)) none (1/2)
        none).update_kalshi
      (ProbabilityUpdate.ofBook ⟨[], [], 55, 42, 0, 0⟩)).blended_fair_prob =
      some (575/1000) ∧
    (575/1000 : ℚ) ≠ 5825/10000 := by
  constructor
  · show (CalculatorState.update_blended_fair_prob _).blended_fair_prob = _
    norm_num [CalculatorState.update_blended_fair_prob, ProbabilityUpdate.ofBook]
  · norm_num

/-- C1, amended: on a Kalshi update with both the model fair value and the
venue fields populated, the calculator's blended fair probability equals
`confidence * model_fair + (1 − confidence) * (yes_bid / 100)` — the market
term is the YES best-bid probability, not the venue bid/implied-ask midpoint.
(The midpoint formula of the claim is the market maker's
`blend_fair_value`/`calculate_market_mid`, which at `yes_bid = 55`,
`no_bid = 42`, `model = 0.60`, `confidence = 0.5` does give 0.5825.) -/
theorem c1_calculator_blends_with_yes_bid (s : CalculatorState)
    (b : OrderbookState) (m : ℚ) (hm : s.fair_prob = some m) :
    (s.update_kalshi (ProbabilityUpdate.ofBook b)).blended_fair_prob =
      some (s.confidence * m + (1 - s.confidence) * ((b.yes_bid : ℚ) / 100)) ∧
    blend_fair_value (1/2 : ℚ) (3/5) (calculate_market_mid 55 42) = 5825/10000 := by
  constructor
  · rw [CalculatorState.update_kalshi, CalculatorState.update_blended_fair_prob]
    simp only [hm]
    rfl
  · rw [blend_fair_value, calculate_market_mid,
      clamp01_eq_self (by norm_num) (by norm_num)]
    norm_num

/-- Witness for the amended C1 at concrete inputs: model fair 0.60,
confidence 0.5, YES bid 55 → blended 0.575. -/
theorem c1_calculator_blends_with_yes_bid_witness :
    (CalculatorState.mk none none 0 0 0 0 none none none (some (3/5)) none (1/2)
        none).fair_prob = some (3/5) ∧
    ((CalculatorState.mk none none 0 0 0 0 none none none (some (3/5)) none (1/2)
        none).update_kalshi
      (ProbabilityUpdate.ofBook ⟨[], [], 55, 42, 0, 0⟩)).blended_fair_prob =
      some ((1/2) * (3/5) + (1 - 1/2) * (((55 : ℕ) : ℚ) / 100)) := by
  refine ⟨rfl, ?_⟩
  exact (c1_calculator_blends_with_yes_bid
    (CalculatorState.mk none none 0 0 0 0 none none none (some (3/5)) none (1/2) none)
    ⟨[], [], 55, 42, 0, 0⟩ (3/5) rfl).1

-- =========================================================================
-- Crypto price aggregator (src/types/crypto_aggregator.rs and
-- src/websockets/crypto_aggregator.rs) — claim C5
-- =========================================================================

/-- The four supported spot venues. -/
inductive Exchange where
  | binance
  | coinbase
  | kraken
  | cryptocom
deriving DecidableEq, Repr

/-- All venues, for iterating the price map. -/
def allExchanges : List Exchange :=
  [.binance, .coinbase, .kraken, .cryptocom]

/-- Price data from a single exchange (timestamp omitted as I/O-only). -/
structure ExchangePrice where
  exchange : Exchange
  bid_price : ℚ
  ask_price : ℚ
  mid_price : ℚ
deriving DecidableEq, Repr

/-- `AggregatorState`: the latest price per exchange
(`HashMap<Exchange, ExchangePrice>`, absent = no data yet). -/
structure AggregatorState where
  prices : Exchange → Option ExchangePrice

/-- `AggregatorState::new()`: empty map. -/
def AggregatorState.new : AggregatorState :=
  ⟨fun _ => none⟩

/-- `AggregatorState::update`: `prices.insert(price.exchange, price)`. -/
def AggregatorState.update (s : AggregatorState) (p : ExchangePrice) : AggregatorState :=
  ⟨fun e => if e = p.exchange then some p else s.prices e⟩

/-- The venues currently populated (holding a price entry). -/
def AggregatorState.populated (s : AggregatorState) : List Exchange :=
  allExchanges.filter (fun e => (s.prices e).isSome)

/-- `AggregatorState::exchange_count`: `prices.len()`. -/
def AggregatorState.exchange_count (s : AggregatorState) : ℕ :=
  s.populated.length

/-- The stored mid price of a venue (0 when absent; only read on populated
venues). -/
def AggregatorState.midOf (s : AggregatorState) (e : Exchange) : ℚ :=
  match s.prices e with
  | some p => p.mid_price
  | none => 0

/-- The stored bid price of a venue. -/
def AggregatorState.bidOf (s : AggregatorState) (e : Exchange) : ℚ :=
  match s.prices e with
  | some p => p.bid_price
  | none => 0

/-- The stored ask price of a venue. -/
def AggregatorState.askOf (s : AggregatorState) (e : Exchange) : ℚ :=
  match s.prices e with
  | some p => p.ask_price
  | none => 0

/-- `AggregatorState::mean_mid_price`: `None` when the map is empty, else the
arithmetic mean of the mid prices of the populated venues. -/
def AggregatorState.mean_mid_price (s : AggregatorState) : Option ℚ :=
  if s.exchange_count = 0 then none
  else some ((s.populated.map s.midOf).sum / (s.exchange_count : ℚ))

/-- `AggregatorState::mean_bid_price`. -/
def AggregatorState.mean_bid_price (s : AggregatorState) : Option ℚ :=
  if s.exchange_count = 0 then none
  else some ((s.populated.map s.bidOf).sum / (s.exchange_count : ℚ))

/-- `AggregatorState::mean_ask_price`. -/
def AggregatorState.mean_ask_price (s : AggregatorState) : Option ℚ :=
  if s.exchange_count = 0 then none
  else some ((s.populated.map s.askOf).sum / (s.exchange_count : ℚ))

/-- The internal updates consumed by the aggregation loop in
src/websockets/crypto_aggregator.rs. -/
inductive InternalUpdate where
  | price (p : ExchangePrice)
  | connected (e : Exchange)
  | disconnected (e : Exchange)
deriving DecidableEq, Repr

/-- One step of the aggregation loop's state handling: only `Price` mutates
the state (`state.update(price)`); `Connected` and `Disconnected` merely
forward events downstream and leave the price map untouched. -/
def aggStep (s : AggregatorState) : InternalUpdate → AggregatorState
  | .price p => s.update p
  | .connected _ => s
  | .disconnected _ => s

/-- Run the aggregation loop over a sequence of internal updates. -/
def applyAggUpdates (us : List InternalUpdate) : AggregatorState :=
  us.foldl aggStep AggregatorState.new

/-- The last price a venue delivered in a sequence of updates, if any. -/
def lastPriceOf (us : List InternalUpdate) (e : Exchange) : Option ExchangePrice :=
  us.foldl
    (fun acc u =>
      match u with
      | .price p => if p.exchange = e then some p else acc
      | _ => acc)
    none

/-- C5 as stated is false: after Binance delivers a price and then
disconnects (with no later price from it), the venue still contributes to
the mean. The code's aggregation loop never removes an entry on
`Disconnected`, so `exchange_count = 1` and `mean_mid = 100000` instead of
the empty mean the claim requires. -/
theorem c5_counterexample :
    (applyAggUpdates [InternalUpdate.price ⟨.binance, 99990, 100010, 100000⟩,
        InternalUpdate.disconnected .binance]).exchange_count = 1 ∧
    (applyAggUpdates [InternalUpdate.price ⟨.binance, 99990, 100010, 100000⟩,
        InternalUpdate.disconnected .binance]).mean_mid_price = some 100000 ∧
    ¬ ((applyAggUpdates [InternalUpdate.price ⟨.binance, 99990, 100010, 100000⟩,
        InternalUpdate.disconnected .binance]).exchange_count = 0) := by
  have hst : applyAggUpdates [InternalUpdate.price ⟨.binance, 99990, 100010, 100000⟩,
      InternalUpdate.disconnected .binance] =
      AggregatorState.update AggregatorState.new ⟨.binance, 99990, 100010, 100000⟩ := by
    rfl
  rw [hst]
  refine ⟨?_, ?_, ?_⟩
  · rfl
  · rw [AggregatorState.mean_mid_price]
    rw [show (AggregatorState.update AggregatorState.new
        ⟨.binance, 99990, 100010, 100000⟩).exchange_count = 1 from rfl]
    rw [show (AggregatorState.update AggregatorState.new
        ⟨.binance, 99990, 100010, 100000⟩).populated = [Exchange.binance] from rfl]
    rw [if_neg (by norm_num), List.map_cons, List.map_nil,
      show (AggregatorState.update AggregatorState.new
        ⟨.binance, 99990, 100010, 100000⟩).midOf Exchange.binance = 100000 from rfl]
    norm_num
  · decide

lemma aggPrices_foldl (us : List InternalUpdate) :
    ∀ (s : AggregatorState) (e : Exchange),
      ((us.foldl aggStep s).prices e) =
        us.foldl
          (fun acc u =>
            match u with
            | .price p => if p.exchange = e then some p else acc
            | _ => acc)
          (s.prices e) := by
  induction us with
  | nil => intro s e; rfl
  | cons u rest ih =>
    intro s e
    simp only [List.foldl_cons]
    rw [ih]
    congr 1
    cases u with
    | price p =>
      show (s.update p).prices e = if p.exchange = e then some p else s.prices e
      rw [AggregatorState.update]
      by_cases he : e = p.exchange
      · rw [if_pos he.symm]
        show (if e = p.exchange then some p else s.prices e) = some p
        rw [if_pos he]
      · rw [if_neg (fun hh => he hh.symm)]
        show (if e = p.exchange then some p else s.prices e) = s.prices e
        rw [if_neg he]
    | connected e2 => rfl
    | disconnected e2 => rfl

lemma applyAgg_prices (us : List InternalUpdate) (e : Exchange) :
    (applyAggUpdates us).prices e = lastPriceOf us e :=
  aggPrices_foldl us AggregatorState.new e

/-- C5, amended: a `Disconnected` event never removes a venue from the
aggregator's price map. A venue's entry is exactly its most recent `Price`
(if any), regardless of intervening connect/disconnect events, so a
disconnected venue keeps contributing its last delivered price; `mean_mid`,
`mean_bid` and `mean_ask` are arithmetic means over the venues that have
ever delivered a price, and `exchange_count` counts exactly those venues. -/
theorem c5_means_over_venues_with_a_price (us : List InternalUpdate) :
    (∀ e, (applyAggUpdates us).prices e = lastPriceOf us e) ∧
    (applyAggUpdates us).exchange_count =
      (allExchanges.filter (fun e => (lastPriceOf us e).isSome)).length ∧
    ((applyAggUpdates us).exchange_count ≠ 0 →
      (applyAggUpdates us).mean_mid_price =
        some ((((allExchanges.filter (fun e => (lastPriceOf us e).isSome)).map
            (fun e => (lastPriceOf us e).elim 0 ExchangePrice.mid_price)).sum) /
          (((allExchanges.filter (fun e => (lastPriceOf us e).isSome)).length : ℚ))) ∧
      (applyAggUpdates us).mean_bid_price =
        some ((((allExchanges.filter (fun e => (lastPriceOf us e).isSome)).map
            (fun e => (lastPriceOf us e).elim 0 ExchangePrice.bid_price)).sum) /
          (((allExchanges.filter (fun e => (lastPriceOf us e).isSome)).length : ℚ))) ∧
      (applyAggUpdates us).mean_ask_price =
        some ((((allExchanges.filter (fun e => (lastPriceOf us e).isSome)).map
            (fun e => (lastPriceOf us e).elim 0 ExchangePrice.ask_price)).sum) /
          (((allExchanges.filter (fun e => (lastPriceOf us e).isSome)).length : ℚ)))) := by
  have hprices := applyAgg_prices us
  have hpop : (applyAggUpdates us).populated =
      allExchanges.filter (fun e => (lastPriceOf us e).isSome) := by
    unfold AggregatorState.populated
    apply List.filter_congr
    intro e _
    rw [hprices e]
  have hcount : (applyAggUpdates us).exchange_count =
      (allExchanges.filter (fun e => (lastPriceOf us e).isSome)).length := by
    unfold AggregatorState.exchange_count
    rw [hpop]
  refine ⟨hprices, hcount, ?_⟩
  intro hne
  refine ⟨?_, ?_, ?_⟩
  · rw [AggregatorState.mean_mid_price, if_neg hne]
    have hmid : ∀ e, (applyAggUpdates us).midOf e =
        (lastPriceOf us e).elim 0 ExchangePrice.mid_price := by
      intro e
      unfold AggregatorState.midOf
      rw [hprices e]
      cases lastPriceOf us e <;> rfl
    rw [hpop, hcount]
    have hmap : List.map (applyAggUpdates us).midOf
        (allExchanges.filter fun e => (lastPriceOf us e).isSome) =
        List.map (fun e => (lastPriceOf us e).elim 0 ExchangePrice.mid_price)
          (allExchanges.filter fun e => (lastPriceOf us e).isSome) :=
      List.map_congr_left (fun e _ => hmid e)
    rw [hmap]
  · rw [AggregatorState.mean_bid_price, if_neg hne]
    have hbid : ∀ e, (applyAggUpdates us).bidOf e =
        (lastPriceOf us e).elim 0 ExchangePrice.bid_price := by
      intro e
      unfold AggregatorState.bidOf
      rw [hprices e]
      cases lastPriceOf us e <;> rfl
    rw [hpop, hcount]
    have hmap : List.map (applyAggUpdates us).bidOf
        (allExchanges.filter fun e => (lastPriceOf us e).isSome) =
        List.map (fun e => (lastPriceOf us e).elim 0 ExchangePrice.bid_price)
          (allExchanges.filter fun e => (lastPriceOf us e).isSome) :=
      List.map_congr_left (fun e _ => hbid e)
    rw [hmap]
  · rw [AggregatorState.mean_ask_price, if_neg hne]
    have hask : ∀ e, (applyAggUpdates us).askOf e =
        (lastPriceOf us e).elim 0 ExchangePrice.ask_price := by
      intro e
      unfold AggregatorState.askOf
      rw [hprices e]
      cases lastPriceOf us e <;> rfl
    rw [hpop, hcount]
    have hmap : List.map (applyAggUpdates us).askOf
        (allExchanges.filter fun e => (lastPriceOf us e).isSome) =
        List.map (fun e => (lastPriceOf us e).elim 0 ExchangePrice.ask_price)
          (allExchanges.filter fun e => (lastPriceOf us e).isSome) :=
      List.map_congr_left (fun e _ => hask e)
    rw [hmap]

/-- Witness for the amended C5 at the counterexample inputs: Binance's price
survives its disconnect, so the count is 1 and all three means reduce to its
last delivered quote. -/
theorem c5_means_over_venues_with_a_price_witness :
    ((applyAggUpdates [InternalUpdate.price ⟨.binance, 99990, 100010, 100000⟩,
        InternalUpdate.disconnected .binance]).exchange_count ≠ 0) ∧
    ((applyAggUpdates [InternalUpdate.price ⟨.binance, 99990, 100010, 100000⟩,
        InternalUpdate.disconnected .binance]).mean_mid_price =
      some ((((allExchanges.filter (fun e =>
          (lastPriceOf [InternalUpdate.price ⟨.binance, 99990, 100010, 100000⟩,
            InternalUpdate.disconnected .binance] e).isSome)).map
          (fun e => (lastPriceOf [InternalUpdate.price ⟨.binance, 99990, 100010, 100000⟩,
            InternalUpdate.disconnected .binance] e).elim 0 ExchangePrice.mid_price)).sum) /
        (((allExchanges.filter (fun e =>
          (lastPriceOf [InternalUpdate.price ⟨.binance, 99990, 100010, 100000⟩,
            InternalUpdate.disconnected .binance] e).isSome)).length : ℚ)))) ∧
    ((applyAggUpdates [InternalUpdate.price ⟨.binance, 99990, 100010, 100000⟩,
        InternalUpdate.disconnected .binance]).mean_bid_price =
      some ((((allExchanges.filter (fun e =>
          (lastPriceOf [InternalUpdate.price ⟨.binance, 99990, 100010, 100000⟩,
            InternalUpdate.disconnected .binance] e).isSome)).map
          (fun e => (lastPriceOf [InternalUpdate.price ⟨.binance, 99990, 100010, 100000⟩,
            InternalUpdate.disconnected .binance] e).elim 0 ExchangePrice.bid_price)).sum) /
        (((allExchanges.filter (fun e =>
          (lastPriceOf [InternalUpdate.price ⟨.binance, 99990, 100010, 100000⟩,
            InternalUpdate.disconnected .binance] e).isSome)).length : ℚ)))) ∧
    ((applyAggUpdates [InternalUpdate.price ⟨.binance, 99990, 100010, 100000⟩,
        InternalUpdate.disconnected .binance]).mean_ask_price =
      some ((((allExchanges.filter (fun e =>
          (lastPriceOf [InternalUpdate.price ⟨.binance, 99990, 100010, 100000⟩,
            InternalUpdate.disconnected .binance] e).isSome)).map
          (fun e => (lastPriceOf [InternalUpdate.price ⟨.binance, 99990, 100010, 100000⟩,
            InternalUpdate.disconnected .binance] e).elim 0 ExchangePrice.ask_price)).sum) /
        (((allExchanges.filter (fun e =>
          (lastPriceOf [InternalUpdate.price ⟨.binance, 99990, 100010, 100000⟩,
            InternalUpdate.disconnected .binance] e).isSome)).length : ℚ)))) := by
  have hne : (applyAggUpdates [InternalUpdate.price ⟨.binance, 99990, 100010, 100000⟩,
      InternalUpdate.disconnected .binance]).exchange_count ≠ 0 := by decide
  have h := (c5_means_over_venues_with_a_price
    [InternalUpdate.price ⟨.binance, 99990, 100010, 100000⟩,
      InternalUpdate.disconnected .binance]).2.2 hne
  exact ⟨hne, h.1, h.2.1, h.2.2⟩

-- =========================================================================
-- Fair value engine (src/fair_value.rs) — claims C6, C9
-- =========================================================================

/-- The intermediate `t = 1 / (1 + 0.5 * z)` of the erfc approximation. -/
noncomputable def erfcT (z : ℝ) : ℝ :=
  1 / (1 + 0.5 * z)

/-- The `ans` value of `erfc` (src/fair_value.rs): Horner evaluation of the
Chebyshev-style rational approximation of the complementary error function,
multiplied into the exponential. -/
noncomputable def erfcAns (z : ℝ) : ℝ :=
  erfcT z *
    Real.exp (-z * z - 1.26551223 +
      erfcT z * (1.00002368 +
        erfcT z * (0.37409196 +
          erfcT z * (0.09678418 +
            erfcT z * (-0.18628806 +
              erfcT z * (0.27886807 +
                erfcT z * (-1.13520398 +
                  erfcT z * (1.48851587 +
                    erfcT z * (-0.82215223 +
                      erfcT z * 0.17087277)))))))))

/-- `erfc` from src/fair_value.rs: computes `ans` at `z = |x|` and reflects
for negative arguments. -/
noncomputable def erfc (x : ℝ) : ℝ :=
  if 0 ≤ x then erfcAns |x| else 2 - erfcAns |x|

/-- `normal_cdf` from src/fair_value.rs: `Phi(x) = 0.5 * erfc(-x / sqrt 2)`. -/
noncomputable def normal_cdf (x : ℝ) : ℝ :=
  0.5 * erfc (-x / Real.sqrt 2)

/-- `binary_option_fair_value` from src/fair_value.rs. -/
noncomputable def binary_option_fair_value
    (spot strike time_to_expiry volatility risk_free_rate : ℝ) : ℝ :=
  if time_to_expiry ≤ 0 then (if strike ≤ spot then 1 else 0)
  else if volatility ≤ 0 then (if strike ≤ spot then 1 else 0)
  else if strike ≤ 0 ∨ spot ≤ 0 then 0.5
  else
    normal_cdf ((Real.log (spot / strike) +
        (risk_free_rate - 0.5 * volatility ^ 2) * time_to_expiry) /
      (volatility * Real.sqrt time_to_expiry))

lemma erfcT_pos {z : ℝ} (hz : 0 ≤ z) : 0 < erfcT z := by
  unfold erfcT
  positivity

lemma erfcT_le_one {z : ℝ} (hz : 0 ≤ z) : erfcT z ≤ 1 := by
  unfold erfcT
  rw [div_le_one (by linarith)]
  linarith

/-- The Horner polynomial of the erfc approximation is at most 1.95 on [0, 1]. -/
lemma erfc_poly_le (t : ℝ) (h0 : 0 ≤ t) (h1 : t ≤ 1) :
    t * (1.00002368 +
      t * (0.37409196 +
        t * (0.09678418 +
          t * (-0.18628806 +
            t * (0.27886807 +
              t * (-1.13520398 +
                t * (1.48851587 +
                  t * (-0.82215223 +
                    t * 0.17087277)))))))) ≤ 1.95 := by
  have h4 : 0 ≤ t ^ 4 * (1 - t) := mul_nonneg (pow_nonneg h0 4) (by linarith)
  have h6 : 0 ≤ t ^ 6 * (1 - t) := mul_nonneg (pow_nonneg h0 6) (by linarith)
  have h8 : 0 ≤ t ^ 8 * (1 - t) := mul_nonneg (pow_nonneg h0 8) (by linarith)
  have hp8 : 0 ≤ t ^ 8 := by positivity
  have hb2 : t ^ 2 ≤ 1 := pow_le_one₀ h0 h1
  have hb3 : t ^ 3 ≤ 1 := pow_le_one₀ h0 h1
  have hb4 : t ^ 4 ≤ 1 := pow_le_one₀ h0 h1
  have hb6 : t ^ 6 ≤ 1 := pow_le_one₀ h0 h1
  nlinarith [h4, h6, h8, hp8, hb2, hb3, hb4, hb6, h1, h0]

lemma scaled_exp_bounds {t E : ℝ} (ht0 : 0 < t) (ht1 : t ≤ 1) (hE : E ≤ 0.69) :
    0 < t * Real.exp E ∧ t * Real.exp E < 2 := by
  have hlog : (0.69 : ℝ) < Real.log 2 :=
    calc (0.69 : ℝ) < 0.6931471803 := by norm_num
      _ < Real.log 2 := Real.log_two_gt_d9
  have hexp : Real.exp E < 2 := by
    rw [show (2 : ℝ) = Real.exp (Real.log 2) from (Real.exp_log (by norm_num)).symm]
    exact Real.exp_lt_exp.mpr (lt_of_le_of_lt hE hlog)
  refine ⟨mul_pos ht0 (Real.exp_pos E), ?_⟩
  have h1e : t * Real.exp E ≤ Real.exp E := by
    calc t * Real.exp E ≤ 1 * Real.exp E :=
        mul_le_mul_of_nonneg_right ht1 (le_of_lt (Real.exp_pos E))
      _ = Real.exp E := one_mul _
  linarith

lemma erfcAns_bounds {z : ℝ} (hz : 0 ≤ z) :
    0 < erfcAns z ∧ erfcAns z < 2 := by
  have ht0 := erfcT_pos hz
  have ht1 := erfcT_le_one hz
  have hpoly := erfc_poly_le (erfcT z) (le_of_lt ht0) ht1
  have hz2 : 0 ≤ z * z := mul_nonneg hz hz
  have hE : -z * z - 1.26551223 +
      erfcT z * (1.00002368 +
        erfcT z * (0.37409196 +
          erfcT z * (0.09678418 +
            erfcT z * (-0.18628806 +
              erfcT z * (0.27886807 +
                erfcT z * (-1.13520398 +
                  erfcT z * (1.48851587 +
                    erfcT z * (-0.82215223 +
                      erfcT z * 0.17087277)))))))) ≤ 0.69 := by
    linarith [hpoly, hz2]
  unfold erfcAns
  exact scaled_exp_bounds ht0 ht1 hE

lemma erfc_bounds (x : ℝ) : 0 < erfc x ∧ erfc x < 2 := by
  have h := erfcAns_bounds (abs_nonneg x)
  unfold erfc
  split_ifs with hx
  · exact h
  · constructor <;> linarith [h.1, h.2]

lemma normal_cdf_bounds (x : ℝ) : 0 < normal_cdf x ∧ normal_cdf x < 1 := by
  have h := erfc_bounds (-x / Real.sqrt 2)
  unfold normal_cdf
  constructor <;> nlinarith [h.1, h.2]

/-- C6: the edge-case policy of `binary_option_fair_value` — when
`time_to_expiry ≤ 0`, or when `time_to_expiry > 0` but `volatility ≤ 0`, it
returns 1 if `spot ≥ strike` and 0 otherwise; when both are positive but
`strike ≤ 0` or `spot ≤ 0` it returns 0.5. -/
theorem c6_fair_value_edge_cases (spot strike T vol r : ℝ) :
    (T ≤ 0 →
      binary_option_fair_value spot strike T vol r =
        (if strike ≤ spot then 1 else 0)) ∧
    (0 < T → vol ≤ 0 →
      binary_option_fair_value spot strike T vol r =
        (if strike ≤ spot then 1 else 0)) ∧
    (0 < T → 0 < vol → (strike ≤ 0 ∨ spot ≤ 0) →
      binary_option_fair_value spot strike T vol r = 0.5) := by
  refine ⟨?_, ?_, ?_⟩
  · intro hT
    rw [binary_option_fair_value, if_pos hT]
  · intro hT hvol
    rw [binary_option_fair_value, if_neg (not_le.mpr hT), if_pos hvol]
  · intro hT hvol hdeg
    rw [binary_option_fair_value, if_neg (not_le.mpr hT),
      if_neg (not_le.mpr hvol), if_pos hdeg]

/-- Witness for C6 at the claim's concrete inputs: with `T = 0`,
`spot = 100000` the value is 1 at `strike = 90000` and 0 at
`strike = 110000`. -/
theorem c6_fair_value_edge_cases_witness :
    binary_option_fair_value 100000 90000 0 0.5 0 = 1 ∧
    binary_option_fair_value 100000 110000 0 0.5 0 = 0 := by
  constructor
  · rw [(c6_fair_value_edge_cases 100000 90000 0 0.5 0).1 (le_refl 0),
      if_pos (by norm_num)]
  · rw [(c6_fair_value_edge_cases 100000 110000 0 0.5 0).1 (le_refl 0),
      if_neg (by norm_num)]

/-- C9: for positive spot, strike, time to expiry and volatility, the fair
value computed through the erfc-approximated normal CDF lies in [0, 1]. -/
theorem c9_fair_value_in_unit_interval (spot strike T vol r : ℝ)
    (hspot : 0 < spot) (hstrike : 0 < strike) (hT : 0 < T) (hvol : 0 < vol) :
    0 ≤ binary_option_fair_value spot strike T vol r ∧
    binary_option_fair_value spot strike T vol r ≤ 1 := by
  rw [binary_option_fair_value, if_neg (not_le.mpr hT), if_neg (not_le.mpr hvol),
    if_neg (by push_neg; exact ⟨hstrike, hspot⟩)]
  have h := normal_cdf_bounds ((Real.log (spot / strike) +
      (r - 0.5 * vol ^ 2) * T) / (vol * Real.sqrt T))
  exact ⟨le_of_lt h.1, le_of_lt h.2⟩

/-- Witness for C9 at concrete positive inputs. -/
theorem c9_fair_value_in_unit_interval_witness :
    (0 : ℝ) < 1 ∧
    0 ≤ binary_option_fair_value 1 1 1 1 0 ∧
    binary_option_fair_value 1 1 1 1 0 ≤ 1 := by
  refine ⟨by norm_num, ?_, ?_⟩
  · exact (c9_fair_value_in_unit_interval 1 1 1 1 0 (by norm_num) (by norm_num)
      (by norm_num) (by norm_num)).1
  · exact (c9_fair_value_in_unit_interval 1 1 1 1 0 (by norm_num) (by norm_num)
      (by norm_num) (by norm_num)).2

-- =========================================================================
-- Market maker signal generation (src/market_maker.rs) — claim C7
-- =========================================================================

/-- `PositionState::max_contracts_to_add`: contracts addable without the
worst-case loss exceeding the budget. Buys consume
`⌊remaining_budget / price⌋` (the `as i64` cast of a non-negative f64 is a
floor); sells are bounded by the position instead. -/
def PositionState.max_contracts_to_add {α : Type} [LinearOrderedField α]
    [FloorRing α] (p : PositionState α) (price max_loss : α)
    (side : OrderSide) (is_buy : Bool) : ℤ :=
  match side, is_buy with
  | .yes, true =>
    if 0 < price then Int.floor (max (max_loss - p.max_loss) 0 / price) else 0
  | .no, true =>
    if 0 < price then Int.floor (max (max_loss - p.max_loss) 0 / price) else 0
  | .yes, false => (p.yes_position.natAbs : ℤ)
  | .no, false => (p.yes_position.natAbs : ℤ)

/-- Market type for BTC binary options (src/fair_value.rs). -/
inductive MarketType where
  | above
  | below
  | range (floor ceiling : ℕ)
deriving DecidableEq, Repr

/-- Parsed BTC market specification (src/fair_value.rs); the expiry instant
is Unix seconds, the ticker string is omitted. -/
structure BtcMarketSpec where
  strike : ℝ
  expiry : ℤ
  market_type : MarketType

/-- `BtcMarketSpec::time_to_expiry`: seconds to expiry over a 365.25-day year. -/
noncomputable def BtcMarketSpec.time_to_expiry (spec : BtcMarketSpec) (now : ℤ) : ℝ :=
  ((spec.expiry - now : ℤ) : ℝ) / (365.25 * 24 * 60 * 60)

/-- `BtcMarketSpec::time_to_expiry_hours`. -/
noncomputable def BtcMarketSpec.time_to_expiry_hours (spec : BtcMarketSpec) (now : ℤ) : ℝ :=
  ((spec.expiry - now : ℤ) : ℝ) / 3600

/-- `BtcMarketSpec::is_expired`: `Utc::now() >= self.expiry`. -/
def BtcMarketSpec.is_expired (spec : BtcMarketSpec) (now : ℤ) : Prop :=
  spec.expiry ≤ now

instance (spec : BtcMarketSpec) (now : ℤ) : Decidable (spec.is_expired now) :=
  Int.decLe _ _

/-- `FairValueCalculator` (src/fair_value.rs): market spec, volatility source
(collapsed to its `get_vol()` value) and risk-free rate. -/
structure FairValueCalculator where
  market_spec : BtcMarketSpec
  vol : ℝ
  risk_free_rate : ℝ

/-- `FairValueCalculator::calculate`: dispatch on the market type. -/
noncomputable def FairValueCalculator.calculate (fv : FairValueCalculator)
    (now : ℤ) (spot : ℝ) : ℝ :=
  match fv.market_spec.market_type with
  | .above =>
    binary_option_fair_value spot fv.market_spec.strike
      (fv.market_spec.time_to_expiry now) fv.vol fv.risk_free_rate
  | .below =>
    1 - binary_option_fair_value spot fv.market_spec.strike
      (fv.market_spec.time_to_expiry now) fv.vol fv.risk_free_rate
  | .range f c =>
    binary_option_fair_value spot (f : ℝ)
      (fv.market_spec.time_to_expiry now) fv.vol fv.risk_free_rate -
    binary_option_fair_value spot (c : ℝ)
      (fv.market_spec.time_to_expiry now) fv.vol fv.risk_free_rate

/-- `MarketMakerConfig` (src/market_maker.rs). -/
structure MarketMakerConfig where
  max_loss_per_market : ℝ
  base_spread : ℝ
  min_edge_to_quote : ℝ
  aggressive_take_threshold : ℝ
  inventory_skew_factor : ℝ
  max_inventory : ℤ
  min_hours_to_expiry : ℝ
  maker_fee_market : Bool
  product_type : ProductType
  fair_value_confidence : ℝ

/-- `MarketMaker` (src/market_maker.rs): the fields read by
`generate_signals`. The ticker, active-order map and `last_*` caches are
bookkeeping not involved in signal generation. -/
structure MarketMaker where
  config : MarketMakerConfig
  fair_value_calc : FairValueCalculator
  position : PositionState ℝ

/-- Passive quote order. -/
structure QuoteOrder where
  side : OrderSide
  is_buy : Bool
  price_cents : ℤ
  contracts : ℤ
  edge : ℝ

/-- Aggressive take order. -/
structure AggressiveOrder where
  side : OrderSide
  is_buy : Bool
  price_cents : ℤ
  contracts : ℤ
  edge : ℝ

/-- `MarketMakerSignal` (src/market_maker.rs). -/
inductive MarketMakerSignal where
  | quote (q : QuoteOrder)
  | aggressiveTake (o : AggressiveOrder)
  | amendOrder (order_id : String) (new_price new_count : ℤ)
  | cancelOrder (order_id : String)
  | cancelAll (reason : String)
  | hold (reason : String)

/-- `f64::round` then `as i64`: round half away from zero. -/
noncomputable def f64_round (x : ℝ) : ℤ :=
  if 0 ≤ x then Int.floor (x + 1/2) else -Int.floor (-x + 1/2)

/-- Possible aggressive trade actions. -/
inductive TradeAction where
  | buyYes
  | sellYes
  | buyNo
  | sellNo
deriving DecidableEq, Repr

/-- `TradeAction::side`. -/
def TradeAction.side : TradeAction → OrderSide
  | .buyYes => .yes
  | .sellYes => .yes
  | .buyNo => .no
  | .sellNo => .no

/-- `TradeAction::is_buy`. -/
def TradeAction.is_buy : TradeAction → Bool
  | .buyYes => true
  | .buyNo => true
  | .sellYes => false
  | .sellNo => false

/-- `EdgeCalculation` (src/market_maker.rs). -/
structure EdgeCalculation where
  fair_prob : ℝ
  market_yes_bid : ℝ
  market_yes_ask : ℝ
  market_no_bid : ℝ
  market_no_ask : ℝ
  yes_buy_edge_raw : ℝ
  yes_sell_edge_raw : ℝ
  no_buy_edge_raw : ℝ
  no_sell_edge_raw : ℝ
  yes_buy_edge_net : ℝ
  yes_sell_edge_net : ℝ
  no_buy_edge_net : ℝ
  no_sell_edge_net : ℝ
  yes_buy_edge_maker : ℝ
  yes_sell_edge_maker : ℝ
  no_buy_edge_maker : ℝ
  no_sell_edge_maker : ℝ

/-- `EdgeCalculation::calculate`: market prices from the two best bids, the
implied asks from the complementary side, raw edges, and net edges after
taker and maker fees. -/
noncomputable def EdgeCalculation.calculate (fair_prob : ℝ) (yes_bid no_bid : ℕ)
    (maker_fee_market : Bool) (product_type : ProductType) : EdgeCalculation :=
  let market_yes_bid : ℝ := (yes_bid : ℝ) / 100
  let market_no_bid : ℝ := (no_bid : ℝ) / 100
  let market_yes_ask := 1 - market_no_bid
  let market_no_ask := 1 - market_yes_bid
  let fair_prob_no := 1 - fair_prob
  let yes_buy_edge_raw := fair_prob - market_yes_ask
  let yes_sell_edge_raw := market_yes_bid - fair_prob
  let no_buy_edge_raw := fair_prob_no - market_no_ask
  let no_sell_edge_raw := market_no_bid - fair_prob_no
  { fair_prob := fair_prob
    market_yes_bid := market_yes_bid
    market_yes_ask := market_yes_ask
    market_no_bid := market_no_bid
    market_no_ask := market_no_ask
    yes_buy_edge_raw := yes_buy_edge_raw
    yes_sell_edge_raw := yes_sell_edge_raw
    no_buy_edge_raw := no_buy_edge_raw
    no_sell_edge_raw := no_sell_edge_raw
    yes_buy_edge_net :=
      yes_buy_edge_raw - calculate_fee market_yes_ask 1 true maker_fee_market product_type
    yes_sell_edge_net :=
      yes_sell_edge_raw - calculate_fee market_yes_bid 1 true maker_fee_market product_type
    no_buy_edge_net :=
      no_buy_edge_raw - calculate_fee market_no_ask 1 true maker_fee_market product_type
    no_sell_edge_net :=
      no_sell_edge_raw - calculate_fee market_no_bid 1 true maker_fee_market product_type
    yes_buy_edge_maker :=
      yes_buy_edge_raw - calculate_fee market_yes_ask 1 false maker_fee_market product_type
    yes_sell_edge_maker :=
      yes_sell_edge_raw - calculate_fee market_yes_bid 1 false maker_fee_market product_type
    no_buy_edge_maker :=
      no_buy_edge_raw - calculate_fee market_no_ask 1 false maker_fee_market product_type
    no_sell_edge_maker :=
      no_sell_edge_raw - calculate_fee market_no_bid 1 false maker_fee_market product_type }

/-- `EdgeCalculation::best_action`: among the four net (after taker fee)
edges, keep only positive ones and choose the maximum; `max_by` returns the
last maximum on ties, which the fold reproduces by replacing on `≤`. -/
noncomputable def EdgeCalculation.best_action (e : EdgeCalculation) : Option TradeAction :=
  (([(e.yes_buy_edge_net, TradeAction.buyYes),
     (e.yes_sell_edge_net, TradeAction.sellYes),
     (e.no_buy_edge_net, TradeAction.buyNo),
     (e.no_sell_edge_net, TradeAction.sellNo)].filter
      (fun z => 0 < z.1)).foldl
    (fun acc z =>
      match acc with
      | none => some z
      | some a => if a.1 ≤ z.1 then some z else some a)
    none).map Prod.snd

/-- `EdgeCalculation::edge_for_action`. -/
def EdgeCalculation.edge_for_action (e : EdgeCalculation) : TradeAction → ℝ
  | .buyYes => e.yes_buy_edge_net
  | .sellYes => e.yes_sell_edge_net
  | .buyNo => e.no_buy_edge_net
  | .sellNo => e.no_sell_edge_net

/-- `MarketMaker::calculate_spread`: base spread, widened by inventory, up to
doubled in the last two hours, capped at 0.10. -/
noncomputable def MarketMaker.calculate_spread (mm : MarketMaker) (now : ℤ) : ℝ :=
  let spread := mm.config.base_spread +
    (mm.position.yes_position.natAbs : ℝ) * mm.config.inventory_skew_factor
  let hours_to_expiry := mm.fair_value_calc.market_spec.time_to_expiry_hours now
  let spread :=
    if hours_to_expiry < 2 ∧ 0 < hours_to_expiry then
      spread * (2 - hours_to_expiry / 2)
    else spread
  min spread 0.10

/-- `MarketMaker::calculate_inventory_skew`. -/
noncomputable def MarketMaker.calculate_inventory_skew (mm : MarketMaker) : ℝ :=
  (mm.position.yes_position : ℝ) * mm.config.inventory_skew_factor

/-- `MarketMaker::calculate_trade_fee`. -/
noncomputable def MarketMaker.calculate_trade_fee (mm : MarketMaker)
    (price : ℝ) (contracts : ℤ) (is_taker : Bool) : ℝ :=
  calculate_fee price contracts is_taker mm.config.maker_fee_market
    mm.config.product_type

/-- The inventory-limit observation: a `Hold` when `|yes_position|` has
reached `max_inventory`. -/
noncomputable def holdInventorySignals (mm : MarketMaker) : List MarketMakerSignal :=
  if mm.config.max_inventory ≤ (mm.position.yes_position.natAbs : ℤ) then
    [.hold "Max inventory reached"]
  else []

/-- The loss-limit observation: a `Hold` when `max_loss` has reached
`max_loss_per_market`. -/
noncomputable def holdMaxLossSignals (mm : MarketMaker) : List MarketMakerSignal :=
  if mm.config.max_loss_per_market ≤ mm.position.max_loss then
    [.hold "Max loss limit reached"]
  else []

/-- The aggressive-take body once the best action is known. -/
noncomputable def takeSignalsAux (mm : MarketMaker) (edge : EdgeCalculation) :
    Option TradeAction → List MarketMakerSignal
  | none => []
  | some action =>
    let edge_after_fees := edge.edge_for_action action
    let price :=
      match action with
      | .buyYes => edge.market_yes_ask
      | .sellYes => edge.market_yes_bid
      | .buyNo => edge.market_no_ask
      | .sellNo => edge.market_no_bid
    if mm.config.aggressive_take_threshold < edge_after_fees then
      let max_contracts := mm.position.max_contracts_to_add price
        mm.config.max_loss_per_market action.side action.is_buy
      let contracts := min max_contracts
        (mm.config.max_inventory - (mm.position.yes_position.natAbs : ℤ))
      if 0 < contracts then
        [.aggressiveTake
          ⟨action.side, action.is_buy, f64_round (price * 100), contracts,
            edge_after_fees⟩]
      else []
    else []

/-- The aggressive-taking block of `generate_signals`. -/
noncomputable def takeSignals (mm : MarketMaker) (edge : EdgeCalculation) :
    List MarketMakerSignal :=
  takeSignalsAux mm edge edge.best_action

/-- The YES-bid passive quote block of `generate_signals`. -/
noncomputable def yesBidQuote (mm : MarketMaker)
    (fair_prob half_spread skew : ℝ) : List MarketMakerSignal :=
  let yes_bid_price := fair_prob - half_spread - skew
  let yes_bid_edge_raw := fair_prob - yes_bid_price
  let yes_bid_edge_net :=
    yes_bid_edge_raw - mm.calculate_trade_fee yes_bid_price 1 false
  if 0.02 < yes_bid_price ∧ yes_bid_price < 0.98 ∧
      mm.config.min_edge_to_quote < yes_bid_edge_net ∧
      mm.position.yes_position < mm.config.max_inventory then
    let max_contracts := mm.position.max_contracts_to_add yes_bid_price
      mm.config.max_loss_per_market .yes true
    if 0 < max_contracts then
      [.quote ⟨.yes, true, f64_round (yes_bid_price * 100),
        min max_contracts 100, yes_bid_edge_net⟩]
    else []
  else []

/-- The YES-ask passive quote block of `generate_signals`. -/
noncomputable def yesAskQuote (mm : MarketMaker)
    (fair_prob half_spread skew : ℝ) : List MarketMakerSignal :=
  let yes_ask_price := fair_prob + half_spread - skew
  let yes_ask_edge_raw := yes_ask_price - fair_prob
  let yes_ask_edge_net :=
    yes_ask_edge_raw - mm.calculate_trade_fee yes_ask_price 1 false
  if 0.02 < yes_ask_price ∧ yes_ask_price < 0.98 ∧
      mm.config.min_edge_to_quote < yes_ask_edge_net ∧
      -mm.config.max_inventory < mm.position.yes_position then
    let max_contracts := mm.position.max_contracts_to_add yes_ask_price
      mm.config.max_loss_per_market .yes false
    if 0 < max_contracts ∨ 0 < mm.position.yes_position then
      let contracts :=
        if 0 < mm.position.yes_position then min mm.position.yes_position 100
        else min max_contracts 100
      if 0 < contracts then
        [.quote ⟨.yes, false, f64_round (yes_ask_price * 100), contracts,
          yes_ask_edge_net⟩]
      else []
    else []
  else []

/-- The NO-bid passive quote block of `generate_signals`. -/
noncomputable def noBidQuote (mm : MarketMaker)
    (fair_prob half_spread skew : ℝ) : List MarketMakerSignal :=
  let fair_prob_no := 1 - fair_prob
  let no_bid_price := fair_prob_no - half_spread + skew
  let no_bid_edge_raw := fair_prob_no - no_bid_price
  let no_bid_edge_net :=
    no_bid_edge_raw - mm.calculate_trade_fee no_bid_price 1 false
  if 0.02 < no_bid_price ∧ no_bid_price < 0.98 ∧
      mm.config.min_edge_to_quote < no_bid_edge_net ∧
      -mm.config.max_inventory < mm.position.yes_position then
    let max_contracts := mm.position.max_contracts_to_add no_bid_price
      mm.config.max_loss_per_market .no true
    if 0 < max_contracts then
      [.quote ⟨.no, true, f64_round (no_bid_price * 100),
        min max_contracts 100, no_bid_edge_net⟩]
    else []
  else []

/-- The NO-ask passive quote block of `generate_signals` (only reduces an
existing short). -/
noncomputable def noAskQuote (mm : MarketMaker)
    (fair_prob half_spread skew : ℝ) : List MarketMakerSignal :=
  let fair_prob_no := 1 - fair_prob
  let no_ask_price := fair_prob_no + half_spread + skew
  let no_ask_edge_raw := no_ask_price - fair_prob_no
  let no_ask_edge_net :=
    no_ask_edge_raw - mm.calculate_trade_fee no_ask_price 1 false
  if 0.02 < no_ask_price ∧ no_ask_price < 0.98 ∧
      mm.config.min_edge_to_quote < no_ask_edge_net ∧
      mm.position.yes_position < mm.config.max_inventory then
    if mm.position.yes_position < 0 then
      [.quote ⟨.no, false, f64_round (no_ask_price * 100),
        min (mm.position.yes_position.natAbs : ℤ) 100, no_ask_edge_net⟩]
    else []
  else []

/-- `MarketMaker::generate_signals` (src/market_maker.rs): blend the model
fair value with the market mid, apply the two expiry safety gates (which
short-circuit), then emit risk-limit holds, an aggressive take, the four
passive quotes, and a fallback hold when nothing was produced. -/
noncomputable def MarketMaker.generate_signals (mm : MarketMaker) (now : ℤ)
    (spot_price : ℝ) (yes_bid no_bid : ℕ) : List MarketMakerSignal :=
  let model_fair := mm.fair_value_calc.calculate now spot_price
  let market_mid : ℝ := calculate_market_mid yes_bid no_bid
  let fair_prob := blend_fair_value mm.config.fair_value_confidence model_fair market_mid
  let hours_to_expiry := mm.fair_value_calc.market_spec.time_to_expiry_hours now
  if hours_to_expiry < mm.config.min_hours_to_expiry then
    [.cancelAll "Too close to expiry"]
  else if mm.fair_value_calc.market_spec.is_expired now then
    [.cancelAll "Market expired"]
  else
    let edge := EdgeCalculation.calculate fair_prob yes_bid no_bid
      mm.config.maker_fee_market mm.config.product_type
    let spread := mm.calculate_spread now
    let skew := mm.calculate_inventory_skew
    let half_spread := spread / 2
    let signals :=
      holdInventorySignals mm ++ holdMaxLossSignals mm ++
      takeSignals mm edge ++
      yesBidQuote mm fair_prob half_spread skew ++
      yesAskQuote mm fair_prob half_spread skew ++
      noBidQuote mm fair_prob half_spread skew ++
      noAskQuote mm fair_prob half_spread skew
    if signals.isEmpty then [.hold "No profitable opportunities"] else signals

lemma mem_of_mem_ite_nil {α : Type} {c : Prop} [Decidable c] {l : List α}
    {a : α} (h : a ∈ if c then l else []) : a ∈ l := by
  by_cases hc : c
  · rwa [if_pos hc] at h
  · rw [if_neg hc] at h
    simp at h

lemma holdInventorySignals_shape (mm : MarketMaker) :
    ∀ s ∈ holdInventorySignals mm, s = .hold "Max inventory reached" := by
  intro s hs
  unfold holdInventorySignals at hs
  simpa using mem_of_mem_ite_nil hs

lemma holdMaxLossSignals_shape (mm : MarketMaker) :
    ∀ s ∈ holdMaxLossSignals mm, s = .hold "Max loss limit reached" := by
  intro s hs
  unfold holdMaxLossSignals at hs
  simpa using mem_of_mem_ite_nil hs

lemma takeSignals_shape (mm : MarketMaker) (edge : EdgeCalculation) :
    ∀ s ∈ takeSignals mm edge, ∃ o, s = .aggressiveTake o := by
  intro s hs
  rw [takeSignals] at hs
  cases hact : edge.best_action with
  | none =>
    rw [hact] at hs
    simp [takeSignalsAux] at hs
  | some action =>
    rw [hact] at hs
    simp only [takeSignalsAux] at hs
    have hs1 := mem_of_mem_ite_nil hs
    have hs2 := mem_of_mem_ite_nil hs1
    exact ⟨_, List.mem_singleton.mp hs2⟩

lemma yesBidQuote_shape (mm : MarketMaker) (fair_prob half_spread skew : ℝ) :
    ∀ s ∈ yesBidQuote mm fair_prob half_spread skew, ∃ q, s = .quote q := by
  intro s hs
  simp only [yesBidQuote] at hs
  have hs1 := mem_of_mem_ite_nil hs
  have hs2 := mem_of_mem_ite_nil hs1
  exact ⟨_, List.mem_singleton.mp hs2⟩

lemma yesAskQuote_shape (mm : MarketMaker) (fair_prob half_spread skew : ℝ) :
    ∀ s ∈ yesAskQuote mm fair_prob half_spread skew, ∃ q, s = .quote q := by
  intro s hs
  simp only [yesAskQuote] at hs
  have hs1 := mem_of_mem_ite_nil hs
  have hs2 := mem_of_mem_ite_nil hs1
  have hs3 := mem_of_mem_ite_nil hs2
  exact ⟨_, List.mem_singleton.mp hs3⟩

lemma noBidQuote_shape (mm : MarketMaker) (fair_prob half_spread skew : ℝ) :
    ∀ s ∈ noBidQuote mm fair_prob half_spread skew, ∃ q, s = .quote q := by
  intro s hs
  simp only [noBidQuote] at hs
  have hs1 := mem_of_mem_ite_nil hs
  have hs2 := mem_of_mem_ite_nil hs1
  exact ⟨_, List.mem_singleton.mp hs2⟩

lemma noAskQuote_shape (mm : MarketMaker) (fair_prob half_spread skew : ℝ) :
    ∀ s ∈ noAskQuote mm fair_prob half_spread skew, ∃ q, s = .quote q := by
  intro s hs
  simp only [noAskQuote] at hs
  have hs1 := mem_of_mem_ite_nil hs
  have hs2 := mem_of_mem_ite_nil hs1
  exact ⟨_, List.mem_singleton.mp hs2⟩

/-- C7: whenever `generate_signals` emits a `CancelAll` (the expiry gate or
the expired-market gate), the returned batch contains no `Quote` and no
`AggressiveTake`. -/
theorem c7_cancel_all_excludes_quotes_and_takes (mm : MarketMaker) (now : ℤ)
    (spot_price : ℝ) (yes_bid no_bid : ℕ) (r : String)
    (h : MarketMakerSignal.cancelAll r ∈
      mm.generate_signals now spot_price yes_bid no_bid) :
    (∀ q, MarketMakerSignal.quote q ∉
      mm.generate_signals now spot_price yes_bid no_bid) ∧
    (∀ o, MarketMakerSignal.aggressiveTake o ∉
      mm.generate_signals now spot_price yes_bid no_bid) := by
  simp only [MarketMaker.generate_signals] at h ⊢
  split_ifs at h ⊢ with h1 h2 h3
  · constructor <;> intro x <;> simp
  · constructor <;> intro x <;> simp
  · simp at h
  · exfalso
    simp only [List.mem_append] at h
    rcases h with ((((((h | h) | h) | h) | h) | h) | h)
    · have hsh := holdInventorySignals_shape mm _ h
      simp at hsh
    · have hsh := holdMaxLossSignals_shape mm _ h
      simp at hsh
    · obtain ⟨o, ho⟩ := takeSignals_shape mm _ _ h
      simp at ho
    · obtain ⟨q, hq⟩ := yesBidQuote_shape mm _ _ _ _ h
      simp at hq
    · obtain ⟨q, hq⟩ := yesAskQuote_shape mm _ _ _ _ h
      simp at hq
    · obtain ⟨q, hq⟩ := noBidQuote_shape mm _ _ _ _ h
      simp at hq
    · obtain ⟨q, hq⟩ := noAskQuote_shape mm _ _ _ _ h
      simp at hq

/-- Witness for C7: a market whose expiry is far in the past trips the first
gate, so the batch is a single `CancelAll` and the theorem applies. -/
theorem c7_cancel_all_excludes_quotes_and_takes_witness :
    (MarketMakerSignal.cancelAll "Too close to expiry" ∈
      (MarketMaker.mk
        ⟨100, 0.03, 0.005, 0.03, 0.001, 500, 0.5, false, .standard, 0.5⟩
        ⟨⟨100000, 0, .above⟩, 0.5, 0⟩
        PositionState.new).generate_signals 1000000 50000 55 42) ∧
    (∀ q, MarketMakerSignal.quote q ∉
      (MarketMaker.mk
        ⟨100, 0.03, 0.005, 0.03, 0.001, 500, 0.5, false, .standard, 0.5⟩
        ⟨⟨100000, 0, .above⟩, 0.5, 0⟩
        PositionState.new).generate_signals 1000000 50000 55 42) ∧
    (∀ o, MarketMakerSignal.aggressiveTake o ∉
      (MarketMaker.mk
        ⟨100, 0.03, 0.005, 0.03, 0.001, 500, 0.5, false, .standard, 0.5⟩
        ⟨⟨100000, 0, .above⟩, 0.5, 0⟩
        PositionState.new).generate_signals 1000000 50000 55 42) := by
  have hgate : ((⟨⟨100000, 0, .above⟩, 0.5, 0⟩ : FairValueCalculator).market_spec.time_to_expiry_hours
      1000000) < (0.5 : ℝ) := by
    rw [BtcMarketSpec.time_to_expiry_hours]
    norm_num
  have hmem : MarketMakerSignal.cancelAll "Too close to expiry" ∈
      (MarketMaker.mk
        ⟨100, 0.03, 0.005, 0.03, 0.001, 500, 0.5, false, .standard, 0.5⟩
        ⟨⟨100000, 0, .above⟩, 0.5, 0⟩
        PositionState.new).generate_signals 1000000 50000 55 42 := by
    simp only [MarketMaker.generate_signals]
    rw [if_pos hgate]
    simp
  have h := c7_cancel_all_excludes_quotes_and_takes _ 1000000 50000 55 42
    "Too close to expiry" hmem
  exact ⟨hmem, h.1, h.2⟩
